import Mathlib

/-!
Verification development for the versioned migration engine of the gc-bc
repository.  The definitions below are a shallow embedding of the JavaScript
sources:

* `src/client/src/utils/version.js`      — `parseVersion`, `compareVersions`,
  `getMigrationPath`
* `src/client/src/utils/migrations.js`   — `createMigration`, `executeMigrations`
* `src/unnamed/part_006` (migration strategies) — `companyMigrations.addField`,
  `reviewMigrations.transformReviews`
* `src/unnamed/part_007` (version storage) — `getStoredVersion`,
  `saveCurrentVersion`, `checkVersionStatus`, `initializeVersioning`

Modelling conventions:

* JavaScript exceptions are modelled with `Except JsError`; a thrown error
  carries its `message` (and a `stack`, which we model as an opaque string,
  empty for engine-generated errors).
* `localStorage` is modelled as an association list from key strings to
  values.  For the version-tracker and executor claims the values are raw
  strings (`RawStore`).  For the migration-primitive claims the stored strings
  are classified by their JSON parse status (`JStore` below).
* The version history, the compiled-in `APP_VERSION` and the migration
  registry are module-level constants in the source; the engine's functions
  are generic in them, so the embedding takes them as an explicit
  `MigrationConfig` parameter.
* `parseInt(d, 10)` on a digit run is modelled as the exact numeric value of
  the digits (a `Nat`); the double-precision rounding JavaScript applies to
  digit runs longer than 15 digits is outside the model.
* JavaScript string comparison (`<`/`>`) compares UTF-16 code units; `utf16`
  below computes that code-unit sequence, including surrogate pairs.
-/

namespace GcBc

/-- A thrown JavaScript error: its `message` and `stack`. -/
structure JsError where
  message : String
  stack : String
deriving Repr, DecidableEq

/-- Result of `parseVersion` in version.js: the four captured groups plus the
raw input. -/
structure ParsedVersion where
  major : Nat
  minor : Nat
  patch : Nat
  label : Option String
  raw : String
deriving Repr, DecidableEq

/-- Numeric value of a run of decimal digits (`parseInt(run, 10)`). -/
def digitsVal (ds : List Char) : Nat :=
  ds.foldl (fun a c => a * 10 + (c.toNat - '0'.toNat)) 0

/-- Character class of the regex `.` metacharacter in JavaScript (without the
`s` flag): every character except the four line terminators. -/
def isRegexDot (c : Char) : Bool :=
  !(c = '\n' || c = '\r' || c = '\u2028' || c = '\u2029')

/-- The regex match `versionStr.match(/^(\d+)\.(\d+)\.(\d+)(?:-(.+))?$/)` from
version.js.  Each `\d+` is a maximal digit run (greediness with the literal
`.` separators makes maximal munch exact), and the optional label must be a
nonempty run of `.`-class characters reaching the end of the string. -/
def versionMatch (s : String) : Option ParsedVersion :=
  let cs := s.data
  let d1 := cs.takeWhile Char.isDigit
  let r1 := cs.dropWhile Char.isDigit
  if d1.isEmpty then none else
  match r1 with
  | '.' :: r2 =>
    let d2 := r2.takeWhile Char.isDigit
    let r3 := r2.dropWhile Char.isDigit
    if d2.isEmpty then none else
    match r3 with
    | '.' :: r4 =>
      let d3 := r4.takeWhile Char.isDigit
      let r5 := r4.dropWhile Char.isDigit
      if d3.isEmpty then none else
      match r5 with
      | [] => some ⟨digitsVal d1, digitsVal d2, digitsVal d3, none, s⟩
      | '-' :: r6 =>
        if r6.isEmpty then none
        else if r6.all isRegexDot then
          some ⟨digitsVal d1, digitsVal d2, digitsVal d3, some (String.mk r6), s⟩
        else none
      | _ => none
    | _ => none
  | _ => none

/-- `parseVersion(versionStr)` from version.js: returns the parsed components
or throws `Invalid version format: ...`. -/
def parseVersion (s : String) : Except JsError ParsedVersion :=
  match versionMatch s with
  | some p => .ok p
  | none => .error ⟨"Invalid version format: " ++ s, ""⟩

/-- UTF-16 code units of one character (a surrogate pair for astral code
points). -/
def utf16Char (c : Char) : List Nat :=
  let v := c.toNat
  if v < 65536 then [v]
  else [55296 + (v - 65536) / 1024, 56320 + (v - 65536) % 1024]

/-- UTF-16 code-unit sequence of a string, the sequence JavaScript string
comparison operates on. -/
def utf16 (s : String) : List Nat :=
  (s.data.map utf16Char).flatten

/-- Lexicographic order on code-unit sequences. -/
def unitsLt : List Nat → List Nat → Bool
  | [], [] => false
  | [], _ :: _ => true
  | _ :: _, [] => false
  | a :: as, b :: bs =>
    if a < b then true else if b < a then false else unitsLt as bs

/-- The JavaScript string relation `x < y` (UTF-16 code-unit lexicographic). -/
def jsStrLt (x y : String) : Bool :=
  unitsLt (utf16 x) (utf16 y)

/-- The body of `compareVersions` after both arguments parsed (version.js,
lines 108-120): compare major, minor, patch, then labels (`null` label beats
any label; two labels by JavaScript string order). -/
def compareParsed (a b : ParsedVersion) : Int :=
  if a.major ≠ b.major then (if a.major > b.major then 1 else -1)
  else if a.minor ≠ b.minor then (if a.minor > b.minor then 1 else -1)
  else if a.patch ≠ b.patch then (if a.patch > b.patch then 1 else -1)
  else
    match a.label, b.label with
    | none, some _ => 1
    | some _, none => -1
    | none, none => 0
    | some la, some lb =>
      if la = lb then 0 else if jsStrLt lb la then 1 else -1

/-- `compareVersions(versionA, versionB)` from version.js: parses both
arguments (propagating the parse error of the first invalid one) and compares
the parsed forms. -/
def compareVersions (va vb : String) : Except JsError Int := do
  let a ← parseVersion va
  let b ← parseVersion vb
  .ok (compareParsed a b)

/-! ### Order-theoretic facts about the code-unit comparison -/

theorem unitsLt_cons (a b : Nat) (as bs : List Nat) :
    unitsLt (a :: as) (b :: bs) =
      if a < b then true else if b < a then false else unitsLt as bs := rfl

theorem unitsLt_irrefl : ∀ x : List Nat, unitsLt x x = false
  | [] => rfl
  | a :: as => by
    rw [unitsLt_cons]
    simp [unitsLt_irrefl as]

theorem unitsLt_trans : ∀ {x y z : List Nat},
    unitsLt x y = true → unitsLt y z = true → unitsLt x z = true := by
  intro x
  induction x with
  | nil =>
    intro y z hxy hyz
    cases y with
    | nil => exact hyz
    | cons b bs =>
      cases z with
      | nil => simp [unitsLt] at hyz
      | cons c cs => rfl
  | cons a as ih =>
    intro y z hxy hyz
    cases y with
    | nil => simp [unitsLt] at hxy
    | cons b bs =>
      cases z with
      | nil => simp [unitsLt] at hyz
      | cons c cs =>
        rw [unitsLt_cons] at hxy hyz ⊢
        by_cases h1 : a < b <;> by_cases h2 : b < a <;>
          by_cases h3 : b < c <;> by_cases h4 : c < b <;>
            by_cases h5 : a < c <;> by_cases h6 : c < a <;>
              simp [h1, h2, h3, h4, h5, h6] at hxy hyz ⊢ <;>
                first
                  | omega
                  | exact ih hxy hyz

theorem unitsLt_conn : ∀ {x y : List Nat}, x ≠ y →
    unitsLt x y = true ∨ unitsLt y x = true := by
  intro x
  induction x with
  | nil =>
    intro y h
    cases y with
    | nil => exact absurd rfl h
    | cons b bs => left; rfl
  | cons a as ih =>
    intro y h
    cases y with
    | nil => right; rfl
    | cons b bs =>
      by_cases hab : a = b
      · subst hab
        have hne : as ≠ bs := fun he => h (by rw [he])
        rcases ih hne with h1 | h1
        · left; rw [unitsLt_cons]; simp [h1]
        · right; rw [unitsLt_cons]; simp [h1]
      · rcases Nat.lt_or_ge a b with hlt | hge
        · left; rw [unitsLt_cons]; simp [hlt]
        · have hba : b < a := Nat.lt_of_le_of_ne hge (fun he => hab he.symm)
          right; rw [unitsLt_cons]; simp [hba]

theorem unitsLt_asymm {x y : List Nat} (h : unitsLt x y = true) :
    unitsLt y x = false := by
  by_contra hc
  have h2 : unitsLt y x = true := by
    revert hc; cases unitsLt y x <;> simp
  have h3 := unitsLt_trans h h2
  rw [unitsLt_irrefl] at h3
  cases h3

/-! ### Injectivity of the UTF-16 encoding -/

theorem char_valid_facts (c : Char) :
    c.toNat < 55296 ∨ (57343 < c.toNat ∧ c.toNat < 1114112) := c.valid

theorem charEq_of_toNat_eq {c d : Char} (h : c.toNat = d.toNat) : c = d :=
  Char.ext (UInt32.toNat.inj h)

theorem utf16Char_shape (c : Char) :
    (c.toNat < 65536 ∧ utf16Char c = [c.toNat]) ∨
    (65536 ≤ c.toNat ∧ utf16Char c =
      [55296 + (c.toNat - 65536) / 1024, 56320 + (c.toNat - 65536) % 1024]) := by
  by_cases h : c.toNat < 65536
  · left; exact ⟨h, by simp [utf16Char, h]⟩
  · right; exact ⟨by omega, by simp [utf16Char, h]⟩

theorem utf16_head_inj {c d : Char} {r1 r2 : List Nat}
    (h : utf16Char c ++ r1 = utf16Char d ++ r2) : c = d ∧ r1 = r2 := by
  have hc := char_valid_facts c
  have hd := char_valid_facts d
  rcases utf16Char_shape c with ⟨hc1, hc2⟩ | ⟨hc1, hc2⟩ <;>
    rcases utf16Char_shape d with ⟨hd1, hd2⟩ | ⟨hd1, hd2⟩ <;>
      rw [hc2, hd2] at h <;> simp only [List.cons_append, List.cons.injEq] at h
  · exact ⟨charEq_of_toNat_eq h.1, h.2⟩
  · exact absurd h.1 (by omega)
  · exact absurd h.1 (by omega)
  · obtain ⟨h1, h2, h3⟩ := h
    exact ⟨charEq_of_toNat_eq (by omega), h3⟩

theorem utf16L_inj : ∀ {l1 l2 : List Char},
    (l1.map utf16Char).flatten = (l2.map utf16Char).flatten → l1 = l2 := by
  intro l1
  induction l1 with
  | nil =>
    intro l2 h
    cases l2 with
    | nil => rfl
    | cons d ds =>
      exfalso
      simp only [List.map_nil, List.flatten_nil, List.map_cons,
        List.flatten_cons] at h
      rcases utf16Char_shape d with ⟨_, hs⟩ | ⟨_, hs⟩ <;> rw [hs] at h <;>
        simp at h
  | cons c cs ih =>
    intro l2 h
    cases l2 with
    | nil =>
      exfalso
      simp only [List.map_nil, List.flatten_nil, List.map_cons,
        List.flatten_cons] at h
      rcases utf16Char_shape c with ⟨_, hs⟩ | ⟨_, hs⟩ <;> rw [hs] at h <;>
        simp at h
    | cons d ds =>
      simp only [List.map_cons, List.flatten_cons] at h
      obtain ⟨h1, h2⟩ := utf16_head_inj h
      rw [h1, ih h2]

theorem utf16_inj {s t : String} (h : utf16 s = utf16 t) : s = t := by
  have hd := @utf16L_inj s.data t.data h
  cases s; cases t; exact congrArg String.mk hd

theorem jsStrLt_irrefl (x : String) : jsStrLt x x = false :=
  unitsLt_irrefl _

theorem jsStrLt_trans {x y z : String} (h1 : jsStrLt x y = true)
    (h2 : jsStrLt y z = true) : jsStrLt x z = true :=
  unitsLt_trans h1 h2

theorem jsStrLt_conn {x y : String} (h : x ≠ y) :
    jsStrLt x y = true ∨ jsStrLt y x = true :=
  unitsLt_conn (fun he => h (utf16_inj he))

theorem jsStrLt_asymm {x y : String} (h : jsStrLt x y = true) :
    jsStrLt y x = false :=
  unitsLt_asymm h

/-- The label-comparison tail of `compareVersions` (version.js lines 113-120),
factored out: `null` label beats any label, two labels compare by JavaScript
string order. -/
def labelCmp : Option String → Option String → Int
  | none, some _ => 1
  | some _, none => -1
  | none, none => 0
  | some la, some lb =>
    if la = lb then 0 else if jsStrLt lb la then 1 else -1

theorem ifNeStep (x y : Nat) (r : Int) :
    (if x ≠ y then (if x > y then (1 : Int) else -1) else r) =
      (if x < y then -1 else if y < x then 1 else r) := by
  rcases Nat.lt_trichotomy x y with h | h | h
  · rw [if_pos (by omega : x ≠ y), if_neg (by omega : ¬ x > y), if_pos h]
  · rw [if_neg (by omega : ¬ x ≠ y), if_neg (by omega : ¬ x < y),
      if_neg (by omega : ¬ y < x)]
  · rw [if_pos (by omega : x ≠ y), if_pos (by omega : x > y),
      if_neg (by omega : ¬ x < y), if_pos h]

theorem compareParsed_spec (a b : ParsedVersion) :
    compareParsed a b =
      if a.major < b.major then -1 else if b.major < a.major then 1
      else if a.minor < b.minor then -1 else if b.minor < a.minor then 1
      else if a.patch < b.patch then -1 else if b.patch < a.patch then 1
      else labelCmp a.label b.label := by
  unfold compareParsed
  rw [ifNeStep, ifNeStep, ifNeStep]
  rfl

theorem labelCmp_antisym : ∀ x y : Option String, labelCmp x y = -labelCmp y x := by
  intro x y
  cases x with
  | none => cases y <;> rfl
  | some la =>
    cases y with
    | none => rfl
    | some lb =>
      by_cases he : la = lb
      · simp [labelCmp, he]
      · have hne : ¬ lb = la := fun h2 => he h2.symm
        rcases jsStrLt_conn he with h | h
        · have h2 := jsStrLt_asymm h
          simp [labelCmp, he, hne, h, h2]
        · have h2 := jsStrLt_asymm h
          simp [labelCmp, he, hne, h, h2]

theorem labelCmp_range (x y : Option String) :
    labelCmp x y = 1 ∨ labelCmp x y = 0 ∨ labelCmp x y = -1 := by
  cases x <;> cases y
  · simp [labelCmp]
  · simp [labelCmp]
  · simp [labelCmp]
  · rename_i la lb
    by_cases he : la = lb
    · simp [labelCmp, he]
    · by_cases hs : jsStrLt lb la = true <;> simp [labelCmp, he, hs]

theorem labelCmp_trans_pos : ∀ {x y z : Option String},
    labelCmp x y = 1 → labelCmp y z = 1 → labelCmp x z = 1 := by
  intro x y z h1 h2
  cases x with
  | none =>
    cases y with
    | none => simp [labelCmp] at h1
    | some lb =>
      cases z with
      | none => simp [labelCmp] at h2
      | some lc => rfl
  | some la =>
    cases y with
    | none => simp [labelCmp] at h1
    | some lb =>
      cases z with
      | none => simp [labelCmp] at h2
      | some lc =>
        simp only [labelCmp] at h1 h2 ⊢
        by_cases e1 : la = lb
        · simp [e1] at h1
        · by_cases e2 : lb = lc
          · simp [e2] at h2
          · simp only [e1, if_false] at h1
            simp only [e2, if_false] at h2
            by_cases b1 : jsStrLt lb la = true
            · by_cases b2 : jsStrLt lc lb = true
              · have b3 : jsStrLt lc la = true := jsStrLt_trans b2 b1
                have e3 : ¬ la = lc := by
                  intro he
                  subst he
                  rw [jsStrLt_irrefl] at b3
                  cases b3
                simp [e3, b3]
              · simp [b2] at h2
            · simp [b1] at h1

theorem labelCmp_eq_zero_iff : ∀ {x y : Option String}, labelCmp x y = 0 ↔ x = y := by
  intro x y
  cases x <;> cases y
  · simp [labelCmp]
  · simp [labelCmp]
  · simp [labelCmp]
  · rename_i la lb
    by_cases he : la = lb
    · simp [labelCmp, he]
    · by_cases hs : jsStrLt lb la = true <;> simp [labelCmp, he, hs]

theorem compareParsed_antisym (a b : ParsedVersion) :
    compareParsed a b = -compareParsed b a := by
  rw [compareParsed_spec, compareParsed_spec]
  split_ifs <;>
    first
      | omega
      | exact labelCmp_antisym _ _

theorem compareParsed_range (a b : ParsedVersion) :
    compareParsed a b = 1 ∨ compareParsed a b = 0 ∨ compareParsed a b = -1 := by
  rw [compareParsed_spec]
  split_ifs <;>
    first
      | simp
      | exact labelCmp_range _ _

/-- Strict "x is below y" in the order computed by `compareVersions`:
lexicographic on the numeric triple, then the label order. -/
def keyLt (x y : ParsedVersion) : Prop :=
  x.major < y.major ∨
    (x.major = y.major ∧
      (x.minor < y.minor ∨
        (x.minor = y.minor ∧
          (x.patch < y.patch ∨
            (x.patch = y.patch ∧ labelCmp y.label x.label = 1)))))

theorem compareParsed_pos_iff (a b : ParsedVersion) :
    compareParsed a b = 1 ↔ keyLt b a := by
  rw [compareParsed_spec]
  unfold keyLt
  have hr := labelCmp_range a.label b.label
  generalize labelCmp a.label b.label = L at hr ⊢
  split_ifs <;> constructor <;> intro h <;>
    first
      | exact h.elim
      | omega

theorem keyLt_trans {x y z : ParsedVersion}
    (h1 : keyLt x y) (h2 : keyLt y z) : keyLt x z := by
  unfold keyLt at h1 h2 ⊢
  rcases h1 with h1 | ⟨e1, h1⟩
  · rcases h2 with h2 | ⟨e2, _⟩
    · left; omega
    · left; omega
  · rcases h2 with h2 | ⟨e2, h2⟩
    · left; omega
    · right
      refine ⟨by omega, ?_⟩
      rcases h1 with h1 | ⟨f1, h1⟩
      · rcases h2 with h2 | ⟨f2, _⟩
        · left; omega
        · left; omega
      · rcases h2 with h2 | ⟨f2, h2⟩
        · left; omega
        · right
          refine ⟨by omega, ?_⟩
          rcases h1 with h1 | ⟨g1, h1⟩
          · rcases h2 with h2 | ⟨g2, _⟩
            · left; omega
            · left; omega
          · rcases h2 with h2 | ⟨g2, h2⟩
            · left; omega
            · right
              exact ⟨by omega, labelCmp_trans_pos h2 h1⟩

theorem compareParsed_trans_pos {a b c : ParsedVersion}
    (h1 : compareParsed a b = 1) (h2 : compareParsed b c = 1) :
    compareParsed a c = 1 := by
  rw [compareParsed_pos_iff] at h1 h2 ⊢
  exact keyLt_trans h2 h1

theorem compareParsed_eq_labelCmp (a b : ParsedVersion)
    (h1 : a.major = b.major) (h2 : a.minor = b.minor) (h3 : a.patch = b.patch) :
    compareParsed a b = labelCmp a.label b.label := by
  rw [compareParsed_spec, h1, h2, h3]
  simp

/-- The comparison rule exactly as the specification words it: compare major,
then minor, then patch numerically; with equal numeric parts a version with no
label is strictly greater than one with a label; two labeled versions with
equal numeric parts compare lexicographically by label. -/
def specCompare (a b : ParsedVersion) : Int :=
  if a.major < b.major then -1 else if a.major > b.major then 1
  else if a.minor < b.minor then -1 else if a.minor > b.minor then 1
  else if a.patch < b.patch then -1 else if a.patch > b.patch then 1
  else
    match a.label, b.label with
    | none, none => 0
    | none, some _ => 1
    | some _, none => -1
    | some la, some lb =>
      if la = lb then 0 else if jsStrLt la lb then -1 else 1

theorem labelCmp_eq_specLabel : ∀ x y : Option String,
    labelCmp x y =
      match x, y with
      | none, none => 0
      | none, some _ => 1
      | some _, none => -1
      | some la, some lb =>
        if la = lb then 0 else if jsStrLt la lb then -1 else 1 := by
  intro x y
  cases x <;> cases y <;> try rfl
  rename_i la lb
  by_cases he : la = lb
  · simp [labelCmp, he]
  · rcases jsStrLt_conn he with h | h
    · have h2 := jsStrLt_asymm h
      simp [labelCmp, he, h, h2]
    · have h2 := jsStrLt_asymm h
      simp [labelCmp, he, h, h2]

theorem compareParsed_eq_specCompare (a b : ParsedVersion) :
    compareParsed a b = specCompare a b := by
  rw [compareParsed_spec]
  unfold specCompare
  split_ifs <;>
    first
      | omega
      | exact labelCmp_eq_specLabel _ _

instance exceptDecEq {ε α : Type} [DecidableEq ε] [DecidableEq α] :
    DecidableEq (Except ε α) := fun x y =>
  match x, y with
  | .ok a, .ok b =>
    if h : a = b then isTrue (by rw [h])
    else isFalse (fun he => h (Except.ok.inj he))
  | .ok _, .error _ => isFalse (fun he => Except.noConfusion he)
  | .error _, .ok _ => isFalse (fun he => Except.noConfusion he)
  | .error e1, .error e2 =>
    if h : e1 = e2 then isTrue (by rw [h])
    else isFalse (fun he => h (Except.error.inj he))

/-- C7: for all valid version strings `a`, `b`, `c`, `compareVersions` is the
pure comparison of the parsed versions and that comparison is a total order:
antisymmetric (`compare a b = -(compare b a)`, and `0` exactly when neither
side is greater), transitive, and consistent with the defined rule — compare
major, then minor, then patch numerically; a version with no label is strictly
greater than one with a label when the numeric parts are equal; two labeled
versions with equal numeric parts compare lexicographically by label; in
particular `compareVersions "1.0.0" "1.0.0-alpha"` returns `1`. -/
theorem C7_compareVersions_total_order (a b c : String) (pa pb pc : ParsedVersion)
    (ha : parseVersion a = .ok pa) (hb : parseVersion b = .ok pb)
    (hc : parseVersion c = .ok pc) :
    compareVersions a b = .ok (compareParsed pa pb) ∧
    compareParsed pa pb = specCompare pa pb ∧
    compareParsed pa pb = -compareParsed pb pa ∧
    (compareParsed pa pb = 0 ↔
      compareParsed pa pb ≠ 1 ∧ compareParsed pb pa ≠ 1) ∧
    (compareParsed pa pb = 1 → compareParsed pb pc = 1 →
      compareParsed pa pc = 1) ∧
    (compareParsed pa pb = -1 → compareParsed pb pc = -1 →
      compareParsed pa pc = -1) ∧
    (pa.label = none → pb.label ≠ none → pa.major = pb.major →
      pa.minor = pb.minor → pa.patch = pb.patch → compareParsed pa pb = 1) ∧
    (pa.major = pb.major → pa.minor = pb.minor → pa.patch = pb.patch →
      compareParsed pa pb = labelCmp pa.label pb.label) ∧
    compareVersions "1.0.0" "1.0.0-alpha" = .ok 1 := by
  refine ⟨?_, compareParsed_eq_specCompare pa pb, compareParsed_antisym pa pb,
    ?_, fun h1 h2 => compareParsed_trans_pos h1 h2, ?_, ?_,
    fun e1 e2 e3 => compareParsed_eq_labelCmp pa pb e1 e2 e3, by decide⟩
  · unfold compareVersions
    rw [ha, hb]
    rfl
  · rw [compareParsed_antisym pb pa]
    have hr := compareParsed_range pa pb
    omega
  · intro h1 h2
    have e1 : compareParsed pb pa = 1 := by
      rw [compareParsed_antisym pb pa, h1]; rfl
    have e2 : compareParsed pc pb = 1 := by
      rw [compareParsed_antisym pc pb, h2]; rfl
    have e3 := compareParsed_trans_pos e2 e1
    rw [compareParsed_antisym pa pc, e3]
  · intro hnone hsome e1 e2 e3
    rw [compareParsed_eq_labelCmp pa pb e1 e2 e3, hnone]
    cases hl : pb.label with
    | none => exact absurd hl hsome
    | some lb => rfl

/-- Witness for C7: the theorem applied at `"2.0.0"`, `"1.0.0-alpha"`,
`"1.0.0"`. -/
theorem C7_witness : compareVersions "2.0.0" "1.0.0-alpha" = .ok 1 := by
  have h := (C7_compareVersions_total_order "2.0.0" "1.0.0-alpha" "1.0.0"
      ⟨2, 0, 0, none, "2.0.0"⟩ ⟨1, 0, 0, some "alpha", "1.0.0-alpha"⟩
      ⟨1, 0, 0, none, "1.0.0"⟩ (by decide) (by decide) (by decide)).1
  rw [h]
  decide

/-! ### Version history and the migration path resolver (version.js) -/

/-- One entry of `VERSION_HISTORY` in version.js. -/
structure VersionRecord where
  version : String
  requiresMigration : Bool
  migrateFrom : List String := []
  storageKeys : List String := []
  notes : String := ""
  changes : List String := []
  breaking : Bool := false
deriving Repr, DecidableEq

/-- Insertion step of the stable sort modelling
`[...VERSION_HISTORY].sort((a, b) => compareVersions(a.version, b.version))`.
A comparator throw is propagated (the JavaScript sort aborts with it). -/
def insertByCompare (x : VersionRecord) :
    List VersionRecord → Except JsError (List VersionRecord)
  | [] => .ok [x]
  | y :: ys =>
    match compareVersions x.version y.version with
    | .error e => .error e
    | .ok c =>
      if c ≤ 0 then .ok (x :: y :: ys)
      else
        match insertByCompare x ys with
        | .error e => .error e
        | .ok r => .ok (y :: r)

/-- Stable insertion sort by the version comparator.  ES2019+
`Array.prototype.sort` is stable, and for a consistent comparator any stable
comparison sort computes the same permutation. -/
def sortByCompare : List VersionRecord → Except JsError (List VersionRecord)
  | [] => .ok []
  | x :: xs =>
    match sortByCompare xs with
    | .error e => .error e
    | .ok s => insertByCompare x s

/-- `array.findIndex(pred)`, with `-1` encoded as `none`. -/
def findIndexJs (p : VersionRecord → Bool) : List VersionRecord → Option Nat
  | [] => none
  | x :: xs => if p x then some 0 else (findIndexJs p xs).map (· + 1)

/-- `array.slice(a, b)` for lists (both bounds non-negative). -/
def jsSlice (l : List VersionRecord) (a b : Nat) : List VersionRecord :=
  (l.take b).drop a

/-- `getMigrationPath(fromVersion, toVersion)` from version.js, generic in the
history list (`VERSION_HISTORY` in the source).  Identical versions short
circuit to `[]`; the history is sorted by the comparator; unknown from/to
versions log a console error and yield `[]`; otherwise the half-open slice
strictly after `fromVersion` up to and including `toVersion` is filtered to
records with `requiresMigration`. -/
def getMigrationPath (history : List VersionRecord)
    (fromVersion toVersion : String) : Except JsError (List VersionRecord) :=
  if fromVersion = toVersion then .ok []
  else
    match sortByCompare history with
    | .error e => .error e
    | .ok sorted =>
      match findIndexJs (fun v => v.version == fromVersion) sorted,
            findIndexJs (fun v => v.version == toVersion) sorted with
      | some fromIndex, some toIndex =>
        .ok ((jsSlice sorted (fromIndex + 1) (toIndex + 1)).filter
          (fun v => v.requiresMigration))
      | _, _ => .ok []

/-- Adjacent records strictly ascending under the comparator. -/
@[reducible] def histOrd (a b : VersionRecord) : Prop :=
  compareVersions a.version b.version = .ok (-1)

/-- The registry invariant of the specification: the history is strictly
increasing by version. -/
def sortedHist : List VersionRecord → Prop
  | [] => True
  | [_] => True
  | x :: y :: rest => histOrd x y ∧ sortedHist (y :: rest)

theorem insertByCompare_lt_head {x y : VersionRecord} {ys : List VersionRecord}
    (h : histOrd x y) : insertByCompare x (y :: ys) = .ok (x :: y :: ys) := by
  unfold insertByCompare
  rw [h]
  rfl

theorem getMigrationPath_eq_of_sort {history s : List VersionRecord}
    {f t : String} (hne : f ≠ t) (hs : sortByCompare history = .ok s) :
    getMigrationPath history f t =
      (match findIndexJs (fun v => v.version == f) s,
             findIndexJs (fun v => v.version == t) s with
       | some fromIndex, some toIndex =>
         .ok ((jsSlice s (fromIndex + 1) (toIndex + 1)).filter
           (fun v => v.requiresMigration))
       | _, _ => .ok []) := by
  unfold getMigrationPath
  rw [if_neg hne, hs]

theorem sortByCompare_sorted : ∀ {l : List VersionRecord},
    sortedHist l → sortByCompare l = .ok l := by
  intro l
  induction l with
  | nil => intro _; rfl
  | cons x xs ih =>
    intro h
    cases xs with
    | nil => rfl
    | cons y ys =>
      obtain ⟨h1, h2⟩ := h
      unfold sortByCompare
      rw [ih h2]
      exact insertByCompare_lt_head h1

/-- C4: for versions present in a well-formed history with `from ≤ to`,
`getMigrationPath(from, to)` is exactly the contiguous slice of the history
strictly after `from` and up to and including `to`, filtered to records with
`requiresMigration` (hence a subsequence of the history in ascending version
order); and for every version `v`, `getMigrationPath(v, v)` is empty. -/
theorem C4_getMigrationPath_slice (history : List VersionRecord)
    (fromVersion toVersion : String) (i j : Nat) (cv : Int)
    (hsorted : sortedHist history)
    (hf : findIndexJs (fun v => v.version == fromVersion) history = some i)
    (ht : findIndexJs (fun v => v.version == toVersion) history = some j)
    (hcv : compareVersions fromVersion toVersion = .ok cv) (hle : cv ≤ 0) :
    getMigrationPath history fromVersion toVersion =
      .ok ((jsSlice history (i + 1) (j + 1)).filter
        (fun v => v.requiresMigration)) ∧
    ((jsSlice history (i + 1) (j + 1)).filter
        (fun v => v.requiresMigration)).Sublist history ∧
    (∀ v, getMigrationPath history v v = .ok []) := by
  refine ⟨?_, ?_, fun v => by simp [getMigrationPath]⟩
  · by_cases he : fromVersion = toVersion
    · have hij : i = j := by
        rw [he] at hf
        rw [hf] at ht
        exact Option.some.inj ht
      subst hij
      have hnil : jsSlice history (i + 1) (i + 1) = [] := by
        unfold jsSlice
        refine List.drop_eq_nil_of_le ?_
        simp
      unfold getMigrationPath
      rw [if_pos he, hnil]
      rfl
    · rw [getMigrationPath_eq_of_sort he (sortByCompare_sorted hsorted), hf, ht]
  · have h1 : List.Sublist (jsSlice history (i + 1) (j + 1)) history := by
      unfold jsSlice
      exact (List.drop_sublist _ _).trans (List.take_sublist _ _)
    exact (List.filter_sublist _).trans h1

/-- Concrete three-release history used to witness C4. -/
def w4History : List VersionRecord :=
  [{ version := "1.0.0", requiresMigration := false },
   { version := "1.1.0", requiresMigration := true, migrateFrom := ["1.0.0"],
     storageKeys := ["companies"] },
   { version := "1.2.0", requiresMigration := true, migrateFrom := ["1.1.0"] }]

/-- Witness for C4: the theorem applied to a concrete three-release history
with `from = "1.0.0"` and `to = "1.2.0"`. -/
theorem C4_witness :
    getMigrationPath w4History "1.0.0" "1.2.0" =
      .ok [{ version := "1.1.0", requiresMigration := true,
             migrateFrom := ["1.0.0"], storageKeys := ["companies"] },
           { version := "1.2.0", requiresMigration := true,
             migrateFrom := ["1.1.0"] }] := by
  have h := (C4_getMigrationPath_slice w4History "1.0.0" "1.2.0" 0 2 (-1)
    ⟨by decide, by decide, trivial⟩ (by decide) (by decide) (by decide)
    (by decide)).1
  rw [h]
  decide

/-! ### The persisted store at string level, and the executor (migrations.js) -/

/-- `localStorage` at the raw-string level: an association list from keys to
stored string values (keys unique in any reachable store). -/
abbrev RawStore := List (String × String)

/-- `localStorage.getItem(k)` (`null` encoded as `none`): the value of the
first entry with the given key. -/
def getItem (k : String) : RawStore → Option String
  | [] => none
  | e :: es => if e.fst == k then some e.snd else getItem k es

/-- `localStorage.setItem(k, v)`: replace in place, or append a new entry. -/
def setItem (k v : String) (s : RawStore) : RawStore :=
  if s.any (fun e => e.fst == k) then
    s.map (fun e => if e.fst == k then (k, v) else e)
  else s ++ [(k, v)]

/-- The object a migration procedure resolves to, as consumed by the executor:
`result.success`, `result.affectedKeys` (`none` when the field is absent or
not an array), `result.error`, and the optional `message` field produced by
some results. -/
structure ResultObj where
  success : Bool
  affectedKeys : Option (List String)
  error : Option JsError
  message : Option String := none
deriving Repr, DecidableEq

/-- A registered migration procedure (`migrations[version]`): receives
`(fromVersion, toVersion)`, acts on the store, and either resolves to a
`ResultObj` or throws.  The store component is the post-state in both cases
(side effects made before a throw persist). -/
def MigProc : Type :=
  String → String → RawStore → (Except JsError ResultObj) × RawStore

/-- The module-level constants the engine reads: `APP_VERSION`,
`VERSION_HISTORY` and the `migrations` registry. -/
structure MigrationConfig where
  appVersion : String
  history : List VersionRecord
  migrations : String → Option MigProc

/-- One element pushed onto `results` by the executor loop. -/
structure StepEntry where
  version : String
  success : Bool
  affectedKeys : Option (List String)
  details : ResultObj
deriving Repr, DecidableEq

/-- The object `executeMigrations` resolves to.  Fields that some return
sites omit are `Option`s defaulting to `none`. -/
structure ExecResult where
  success : Bool
  message : String
  affectedKeys : Option (List String) := none
  error : Option JsError := none
  results : Option (List StepEntry) := none
deriving Repr, DecidableEq

/-- `result.affectedKeys.forEach(key => affectedKeys.add(key))` over a
JavaScript `Set` (insertion order, first occurrence kept), guarded by
`Array.isArray(result.affectedKeys)`. -/
def addKeys (acc : List String) : Option (List String) → List String
  | some l => l.foldl (fun a k => if a.contains k then a else a ++ [k]) acc
  | none => acc

/-- `result.error?.message || "Unknown error"`. -/
def errMsg : Option JsError → String
  | some e => if e.message = "" then "Unknown error" else e.message
  | none => "Unknown error"

/-- The `for (const versionInfo of migrationPath)` loop of `executeMigrations`
(migrations.js lines 168-219), threading the store, the accumulated
`affectedKeys` set, and the `results` array.  The final `List String`
component is a ghost trace of the versions whose registered procedure was
actually invoked (one entry per call `migrationFn(storedVersion, version)` in
the source), in order; steps with no registered procedure only log a warning
and add nothing. -/
def execLoop (cfg : MigrationConfig) (storedVersion : String) :
    List VersionRecord → RawStore → List String → List StepEntry →
    List String → ExecResult × RawStore × List String
  | [], s, acc, results, trace =>
    ({ success := true,
       message := "Successfully migrated from " ++ storedVersion ++ " to " ++
         cfg.appVersion,
       affectedKeys := some acc, error := none, results := some results },
     s, trace)
  | vi :: rest, s, acc, results, trace =>
    match cfg.migrations vi.version with
    | none => execLoop cfg storedVersion rest s acc results trace
    | some migrationFn =>
      match migrationFn storedVersion vi.version s with
      | (.ok result, s1) =>
        let acc1 := addKeys acc result.affectedKeys
        let results1 := results ++
          [⟨vi.version, result.success, result.affectedKeys, result⟩]
        if result.success then
          execLoop cfg storedVersion rest s1 acc1 results1
            (trace ++ [vi.version])
        else
          ({ success := false,
             message := "Migration failed for version " ++ vi.version ++
               ": " ++ errMsg result.error,
             affectedKeys := some acc1, error := result.error,
             results := some results1 }, s1, trace ++ [vi.version])
      | (.error e, s1) =>
        ({ success := false,
           message := "Migration failed for version " ++ vi.version ++
             ": " ++ e.message,
           error := some e, affectedKeys := some acc,
           results := some results }, s1, trace ++ [vi.version])

/-- `executeMigrations(storedVersion)` from migrations.js, generic in the
compiled-in config.  A falsy or already-current stored version short circuits;
a resolver throw is caught by the outer `try` and reported as failure; an
empty path reports success; otherwise the loop runs.  The last component is
the ghost trace of invoked procedures. -/
def executeMigrations (cfg : MigrationConfig) (storedVersion : String)
    (s : RawStore) : ExecResult × RawStore × List String :=
  if storedVersion = "" ∨ storedVersion = cfg.appVersion then
    ({ success := true, message := "No migration needed" }, s, [])
  else
    match getMigrationPath cfg.history storedVersion cfg.appVersion with
    | .error e =>
      ({ success := false, message := "Migration failed: " ++ e.message,
         error := some e }, s, [])
    | .ok migrationPath =>
      if migrationPath.isEmpty then
        ({ success := true,
           message := "No migrations required from " ++ storedVersion ++
             " to " ++ cfg.appVersion }, s, [])
      else execLoop cfg storedVersion migrationPath s [] [] []

/-! ### C5: unknown versions yield a silently empty path, not a failure -/

theorem insertByCompare_ok {x : VersionRecord} (px : ParsedVersion)
    (hpx : parseVersion x.version = .ok px) :
    ∀ {l : List VersionRecord},
      (∀ r ∈ l, ∃ p, parseVersion r.version = .ok p) →
      ∃ out, insertByCompare x l = .ok out ∧
        ∀ a, a ∈ out ↔ a = x ∨ a ∈ l := by
  intro l
  induction l with
  | nil =>
    intro _
    exact ⟨[x], rfl, by simp⟩
  | cons y ys ih =>
    intro hval
    obtain ⟨py, hpy⟩ := hval y (by simp)
    obtain ⟨out2, hout2, hmem2⟩ := ih (fun r hr => hval r (by simp [hr]))
    have hcv : compareVersions x.version y.version =
        .ok (compareParsed px py) := by
      unfold compareVersions
      rw [hpx, hpy]
      rfl
    by_cases hle : compareParsed px py ≤ 0
    · refine ⟨x :: y :: ys, ?_, by intro a; simp⟩
      unfold insertByCompare
      simp [hcv, hle]
    · refine ⟨y :: out2, ?_, ?_⟩
      · unfold insertByCompare
        simp [hcv, hle, hout2]
      · intro a
        simp [hmem2 a]
        tauto

theorem sortByCompare_ok : ∀ {l : List VersionRecord},
    (∀ r ∈ l, ∃ p, parseVersion r.version = .ok p) →
    ∃ out, sortByCompare l = .ok out ∧ ∀ a, a ∈ out ↔ a ∈ l := by
  intro l
  induction l with
  | nil =>
    intro _
    exact ⟨[], rfl, by simp⟩
  | cons x xs ih =>
    intro hval
    obtain ⟨px, hpx⟩ := hval x (by simp)
    obtain ⟨s, hs, hmem⟩ := ih (fun r hr => hval r (by simp [hr]))
    obtain ⟨out, hout, hmem2⟩ :=
      insertByCompare_ok px hpx (fun r hr => hval r (by simp [(hmem r).mp hr]))
    refine ⟨out, ?_, ?_⟩
    · unfold sortByCompare
      rw [hs]
      exact hout
    · intro a
      rw [hmem2 a]
      simp [hmem a]

theorem findIndexJs_none {p : VersionRecord → Bool} :
    ∀ {l : List VersionRecord}, (∀ a ∈ l, p a = false) →
      findIndexJs p l = none := by
  intro l
  induction l with
  | nil => intro _; rfl
  | cons x xs ih =>
    intro h
    unfold findIndexJs
    rw [h x (by simp), ih (fun a ha => h a (by simp [ha]))]
    rfl

/-- C5 (amended): for distinct `fromVersion`/`toVersion` where either version
is absent from a history of valid versions, path resolution does not fail: it
logs a console error and returns a silently empty path, and the executor then
reports overall success with a "no migrations required" message, no error, no
step results, and no procedure invocation.  No migration is attempted, but no
resolution failure is surfaced to the caller. -/
theorem C5_unknown_version_silent_empty (cfg : MigrationConfig) (s : RawStore)
    (storedVersion : String)
    (hvalid : ∀ r ∈ cfg.history, ∃ p, parseVersion r.version = .ok p)
    (hne : storedVersion ≠ cfg.appVersion) (hnempty : storedVersion ≠ "")
    (habsent : (∀ r ∈ cfg.history, r.version ≠ storedVersion) ∨
               (∀ r ∈ cfg.history, r.version ≠ cfg.appVersion)) :
    getMigrationPath cfg.history storedVersion cfg.appVersion = .ok [] ∧
    executeMigrations cfg storedVersion s =
      ({ success := true,
         message := "No migrations required from " ++ storedVersion ++
           " to " ++ cfg.appVersion }, s, []) := by
  obtain ⟨sorted, hs, hmem⟩ := sortByCompare_ok hvalid
  have hpath : getMigrationPath cfg.history storedVersion cfg.appVersion =
      .ok [] := by
    rw [getMigrationPath_eq_of_sort hne hs]
    rcases habsent with hab | hab
    · have hnone :
          findIndexJs (fun v => v.version == storedVersion) sorted = none := by
        apply findIndexJs_none
        intro a ha
        have h2 : a.version ≠ storedVersion := hab a ((hmem a).mp ha)
        simp [h2]
      rw [hnone]
    · have hnone :
          findIndexJs (fun v => v.version == cfg.appVersion) sorted = none := by
        apply findIndexJs_none
        intro a ha
        have h2 : a.version ≠ cfg.appVersion := hab a ((hmem a).mp ha)
        simp [h2]
      rw [hnone]
      cases findIndexJs (fun v => v.version == storedVersion) sorted <;> rfl
  refine ⟨hpath, ?_⟩
  unfold executeMigrations
  rw [if_neg (by push_neg; exact ⟨hnempty, hne⟩), hpath]
  rfl

/-- Two-release concrete config used for the C5 counterexample and witness. -/
def c5Config : MigrationConfig :=
  { appVersion := "1.1.0",
    history := [{ version := "1.0.0", requiresMigration := false },
                { version := "1.1.0", requiresMigration := true,
                  migrateFrom := ["1.0.0"] }],
    migrations := fun _ => none }

/-- Counterexample to C5 as stated: with `fromVersion = "0.9.0"` absent from
the history, no resolution failure is surfaced to the caller: the executor
reports `success = true` with no error, while the resolver returned a
silently empty path. -/
theorem C5_counterexample :
    (executeMigrations c5Config "0.9.0" []).1.success = true ∧
    (executeMigrations c5Config "0.9.0" []).1.error = none ∧
    getMigrationPath c5Config.history "0.9.0" "1.1.0" = .ok [] := by
  refine ⟨?_, ?_, ?_⟩ <;> decide

/-- Witness for the amended C5 theorem at a concrete input. -/
theorem C5_witness :
    executeMigrations c5Config "0.8.0" [("companies", "[]")] =
      ({ success := true,
         message := "No migrations required from " ++ "0.8.0" ++ " to " ++
           "1.1.0" }, [("companies", "[]")], []) := by
  have hvalid : ∀ r ∈ c5Config.history, ∃ p, parseVersion r.version = .ok p := by
    intro r hr
    simp [c5Config] at hr
    rcases hr with h | h <;> subst h
    · exact ⟨⟨1, 0, 0, none, "1.0.0"⟩, by decide⟩
    · exact ⟨⟨1, 1, 0, none, "1.1.0"⟩, by decide⟩
  have habs : ∀ r ∈ c5Config.history, r.version ≠ "0.8.0" := by
    intro r hr
    simp [c5Config] at hr
    rcases hr with h | h <;> subst h <;> decide
  exact (C5_unknown_version_silent_empty c5Config [("companies", "[]")] "0.8.0"
    hvalid (by decide) (by decide) (Or.inl habs)).2

/-- C1: on a resolved three-step migration path whose three versions all have
registered procedures, if the first procedure reports `success = true` and the
second reports `success = false`, then `executeMigrations` returns overall
`success = false` with exactly two result entries — for steps 1 and 2 in path
order, including the failing one — and the third step's procedure is never
invoked (the invocation trace is exactly the first two versions). -/
theorem C1_stop_on_first_failure (cfg : MigrationConfig)
    (storedVersion : String) (s0 s1 s2 : RawStore)
    (r1 r2 r3 : VersionRecord) (p1 p2 p3 : MigProc) (res1 res2 : ResultObj)
    (hne : storedVersion ≠ "")
    (hpath : getMigrationPath cfg.history storedVersion cfg.appVersion =
      .ok [r1, r2, r3])
    (hp1 : cfg.migrations r1.version = some p1)
    (hp2 : cfg.migrations r2.version = some p2)
    (hp3 : cfg.migrations r3.version = some p3)
    (hrun1 : p1 storedVersion r1.version s0 = (.ok res1, s1))
    (hs1 : res1.success = true)
    (hrun2 : p2 storedVersion r2.version s1 = (.ok res2, s2))
    (hs2 : res2.success = false)
    (hv31 : r3.version ≠ r1.version) (hv32 : r3.version ≠ r2.version) :
    executeMigrations cfg storedVersion s0 =
      ({ success := false,
         message := "Migration failed for version " ++ r2.version ++ ": " ++
           errMsg res2.error,
         affectedKeys :=
           some (addKeys (addKeys [] res1.affectedKeys) res2.affectedKeys),
         error := res2.error,
         results := some
           [⟨r1.version, res1.success, res1.affectedKeys, res1⟩,
            ⟨r2.version, res2.success, res2.affectedKeys, res2⟩] },
       s2, [r1.version, r2.version]) ∧
    r3.version ∉ [r1.version, r2.version] := by
  have hnapp : storedVersion ≠ cfg.appVersion := by
    intro he
    rw [he] at hpath
    unfold getMigrationPath at hpath
    rw [if_pos rfl] at hpath
    simp at hpath
  refine ⟨?_, by simp [hv31, hv32]⟩
  unfold executeMigrations
  rw [if_neg (by push_neg; exact ⟨hne, hnapp⟩), hpath]
  show execLoop cfg storedVersion [r1, r2, r3] s0 [] [] [] = _
  unfold execLoop
  simp only [hp1, hrun1, hs1, if_true, List.nil_append]
  unfold execLoop
  simp only [hp2, hrun2, hs2, Bool.false_eq_true, if_false, List.nil_append]
  simp

/-- Config with a four-release history and procedures for the three
migrating releases: step `"1.1.0"` succeeds, step `"1.2.0"` fails, step
`"1.3.0"` would succeed but must never run. -/
def c1Config : MigrationConfig :=
  { appVersion := "1.3.0",
    history := [{ version := "1.0.0", requiresMigration := false },
                { version := "1.1.0", requiresMigration := true,
                  migrateFrom := ["1.0.0"] },
                { version := "1.2.0", requiresMigration := true,
                  migrateFrom := ["1.1.0"] },
                { version := "1.3.0", requiresMigration := true,
                  migrateFrom := ["1.2.0"] }],
    migrations := fun v =>
      if v = "1.1.0" then
        some (fun _ _ st =>
          (.ok { success := true, affectedKeys := some ["companies"],
                 error := none }, st))
      else if v = "1.2.0" then
        some (fun _ _ st =>
          (.ok { success := false, affectedKeys := some ["reviews_1"],
                 error := some ⟨"boom", ""⟩ }, st))
      else if v = "1.3.0" then
        some (fun _ _ st =>
          (.ok { success := true, affectedKeys := some ["reviews_2"],
                 error := none }, st))
      else none }

/-- Witness for C1 at the concrete `c1Config`. -/
theorem C1_witness :
    (executeMigrations c1Config "1.0.0" []).1.success = false ∧
    (executeMigrations c1Config "1.0.0" []).2.2 = ["1.1.0", "1.2.0"] ∧
    "1.3.0" ∉ (executeMigrations c1Config "1.0.0" []).2.2 := by
  have h := C1_stop_on_first_failure c1Config "1.0.0" [] [] []
    { version := "1.1.0", requiresMigration := true, migrateFrom := ["1.0.0"] }
    { version := "1.2.0", requiresMigration := true, migrateFrom := ["1.1.0"] }
    { version := "1.3.0", requiresMigration := true, migrateFrom := ["1.2.0"] }
    (fun _ _ st =>
      (.ok { success := true, affectedKeys := some ["companies"],
             error := none }, st))
    (fun _ _ st =>
      (.ok { success := false, affectedKeys := some ["reviews_1"],
             error := some ⟨"boom", ""⟩ }, st))
    (fun _ _ st =>
      (.ok { success := true, affectedKeys := some ["reviews_2"],
             error := none }, st))
    { success := true, affectedKeys := some ["companies"], error := none }
    { success := false, affectedKeys := some ["reviews_1"],
      error := some ⟨"boom", ""⟩ }
    (by decide) (by decide) rfl rfl rfl rfl rfl rfl rfl
    (by decide) (by decide)
  refine ⟨?_, ?_, ?_⟩ <;> rw [h.1] <;> decide

/-! ### The version tracker (src/unnamed/part_007) -/

/-- The marker key (`LOCAL_STORAGE_KEYS.APP_VERSION`). -/
def VERSION_STORAGE_KEY : String := "app_version"

/-- `getStoredVersion()` from part_007. -/
def getStoredVersion (s : RawStore) : Option String :=
  getItem VERSION_STORAGE_KEY s

/-- `saveCurrentVersion()` from part_007. -/
def saveCurrentVersion (cfg : MigrationConfig) (s : RawStore) : RawStore :=
  setItem VERSION_STORAGE_KEY cfg.appVersion s

/-- The status object of `checkVersionStatus()`; the `isNewer`/`isOlder`
fields are absent (`none`) in the first-run branch. -/
structure VersionStatus where
  firstRun : Bool
  updated : Bool
  fromVersion : Option String
  toVersion : String
  isNewer : Option Bool
  isOlder : Option Bool
deriving Repr, DecidableEq

/-- `checkVersionStatus()` from part_007: first-run when the stored marker is
absent or empty (JavaScript falsiness of `!storedVersion`); otherwise the
stored marker is compared to the compiled-in version, and a parse throw from
`compareVersions` propagates. -/
def checkVersionStatus (cfg : MigrationConfig) (s : RawStore) :
    Except JsError VersionStatus :=
  match getStoredVersion s with
  | none => .ok ⟨true, false, none, cfg.appVersion, none, none⟩
  | some sv =>
    if sv = "" then .ok ⟨true, false, none, cfg.appVersion, none, none⟩
    else
      match compareVersions sv cfg.appVersion with
      | .error e => .error e
      | .ok c =>
        .ok ⟨false, decide (c ≠ 0), some sv, cfg.appVersion,
          some (decide (c < 0)), some (decide (c > 0))⟩

/-- `checkMigrationNeeded(storedVersion)` from migrations.js. -/
def checkMigrationNeeded (cfg : MigrationConfig)
    (storedVersion : Option String) : Except JsError Bool :=
  match storedVersion with
  | none => .ok false
  | some sv =>
    if sv = "" then .ok false
    else
      match compareVersions sv cfg.appVersion with
      | .error e => .error e
      | .ok c => .ok (decide (c ≠ 0))

/-- The object `initializeVersioning` resolves to: the spread status plus
`migrationNeeded` and `migrationResult`. -/
structure InitResult where
  firstRun : Bool
  updated : Bool
  fromVersion : Option String
  toVersion : String
  isNewer : Option Bool
  isOlder : Option Bool
  migrationNeeded : Bool
  migrationResult : ExecResult
deriving Repr, DecidableEq

/-- The default `migrationResult` of the no-migration return site. -/
def noMigrationNeededResult : ExecResult :=
  { success := true, message := "No migration needed" }

/-- The fall-through tail of `initializeVersioning` (part_007 lines 106-115):
save the current version when `firstRun || updated`, and return the spread
status with no migration. -/
def finishNoMigration (cfg : MigrationConfig) (status : VersionStatus)
    (s : RawStore) : Except JsError (InitResult × RawStore) :=
  .ok (⟨status.firstRun, status.updated, status.fromVersion, status.toVersion,
        status.isNewer, status.isOlder, false, noMigrationNeededResult⟩,
       if status.firstRun || status.updated then saveCurrentVersion cfg s
       else s)

/-- `initializeVersioning()` from part_007, generic in the compiled-in
config.  The source has no try/catch: a parse throw from
`checkVersionStatus` (or `checkMigrationNeeded`) propagates to the caller —
the `Except` error models exactly that.  In the migration branch the new
marker is saved only when the executor reports success. -/
def initializeVersioning (cfg : MigrationConfig) (s : RawStore) :
    Except JsError (InitResult × RawStore) :=
  match checkVersionStatus cfg s with
  | .error e => .error e
  | .ok status =>
    if status.updated && status.isNewer.getD false then
      match checkMigrationNeeded cfg status.fromVersion with
      | .error e => .error e
      | .ok migrationNeeded =>
        if migrationNeeded then
          let r := executeMigrations cfg (status.fromVersion.getD "") s
          .ok (⟨status.firstRun, status.updated, status.fromVersion,
                status.toVersion, status.isNewer, status.isOlder,
                migrationNeeded, r.1⟩,
               if r.1.success then saveCurrentVersion cfg r.2.1 else r.2.1)
        else finishNoMigration cfg status s
    else finishNoMigration cfg status s

/-- Whether a public entry point threw. -/
def isThrow {α : Type} (r : Except JsError α) : Bool :=
  match r with
  | .error _ => true
  | .ok _ => false

/-- The stored marker after a run of `initializeVersioning` (meaningful when
the run does not throw). -/
def markerAfter (cfg : MigrationConfig) (s : RawStore) : Option String :=
  match initializeVersioning cfg s with
  | .ok (_, s1) => getStoredVersion s1
  | .error _ => none

/-! ### Association-list store lemmas -/

theorem getItem_map_set (k v : String) : ∀ {s : RawStore},
    s.any (fun e => e.fst == k) = true →
    getItem k (s.map (fun e => if e.fst == k then (k, v) else e)) = some v := by
  intro s
  induction s with
  | nil => intro h; simp at h
  | cons e es ih =>
    intro h
    by_cases he : (e.fst == k) = true
    · simp [getItem, he]
    · have h2 : es.any (fun e => e.fst == k) = true := by
        simpa [he] using h
      simpa [getItem, he] using ih h2

theorem getItem_append_single (k v : String) : ∀ {s : RawStore},
    s.any (fun e => e.fst == k) = false →
    getItem k (s ++ [(k, v)]) = some v := by
  intro s
  induction s with
  | nil => intro _; simp [getItem]
  | cons e es ih =>
    intro h
    have he : (e.fst == k) = false := by
      cases hb : (e.fst == k)
      · rfl
      · simp [List.any_cons, hb] at h
    have h2 : es.any (fun e => e.fst == k) = false := by
      simpa [he] using h
    simpa [getItem, he] using ih h2

theorem getItem_setItem_self (k v : String) (s : RawStore) :
    getItem k (setItem k v s) = some v := by
  unfold setItem
  by_cases h : s.any (fun e => e.fst == k) = true
  · rw [if_pos h]
    exact getItem_map_set k v h
  · have h2 : s.any (fun e => e.fst == k) = false := by
      cases hb : s.any (fun e => e.fst == k)
      · rfl
      · exact absurd hb h
    rw [if_neg (by rw [h2]; exact Bool.false_ne_true)]
    exact getItem_append_single k v h2

/-! ### The marker is untouched by the executor -/

/-- The specification's ownership assumption: registered procedures never
read from or write to the stored-version marker key; only the Version
Tracker does.  Stated as: every registered procedure preserves the marker. -/
def preservesMarker (cfg : MigrationConfig) : Prop :=
  ∀ v p, cfg.migrations v = some p →
    ∀ f t st, getStoredVersion ((p f t st).2) = getStoredVersion st

theorem execLoop_marker (cfg : MigrationConfig) (hpres : preservesMarker cfg)
    (storedVersion : String) :
    ∀ (path : List VersionRecord) (s : RawStore) (acc : List String)
      (results : List StepEntry) (trace : List String),
      getStoredVersion
          (execLoop cfg storedVersion path s acc results trace).2.1 =
        getStoredVersion s := by
  intro path
  induction path with
  | nil => intro s acc results trace; rfl
  | cons vi rest ih =>
    intro s acc results trace
    unfold execLoop
    cases hm : cfg.migrations vi.version with
    | none =>
      simp only
      exact ih s acc results trace
    | some fn =>
      simp only
      have hpre := hpres vi.version fn hm storedVersion vi.version s
      rcases hr : fn storedVersion vi.version s with ⟨exc, s1⟩
      rw [hr] at hpre
      cases exc with
      | ok result =>
        by_cases hsc : result.success = true
        · simp only [hsc, if_true]
          rw [ih s1]
          exact hpre
        · have hsc2 : result.success = false := by
            cases hb : result.success
            · rfl
            · exact absurd hb hsc
          simp only [hsc2, Bool.false_eq_true, if_false]
          exact hpre
      | error e => exact hpre

theorem executeMigrations_marker (cfg : MigrationConfig)
    (hpres : preservesMarker cfg) (sv : String) (s : RawStore) :
    getStoredVersion (executeMigrations cfg sv s).2.1 = getStoredVersion s := by
  unfold executeMigrations
  by_cases h0 : sv = "" ∨ sv = cfg.appVersion
  · rw [if_pos h0]
  · rw [if_neg h0]
    cases hp : getMigrationPath cfg.history sv cfg.appVersion with
    | error e => rfl
    | ok path =>
      by_cases he : path.isEmpty = true
      · simp only [he, if_true]
      · simp only [he, Bool.false_eq_true, if_false]
        exact execLoop_marker cfg hpres sv path s [] [] []

/-- C2: with a stored version marker present, the compiled-in version
strictly newer, and registered procedures that never touch the marker key,
if the migration run invoked by `initializeVersioning` reports overall
`success = false`, then `initializeVersioning` returns normally and the
stored version marker afterwards is exactly the value it had before the
call, so a subsequent run resolves the identical path from the same
`fromVersion`. -/
theorem C2_failed_migration_preserves_marker (cfg : MigrationConfig)
    (s : RawStore) (sv : String) (cv : Int)
    (hm : getStoredVersion s = some sv) (hnz : sv ≠ "")
    (hcv : compareVersions sv cfg.appVersion = .ok cv) (hlt : cv < 0)
    (hpres : preservesMarker cfg)
    (hfail : (executeMigrations cfg sv s).1.success = false) :
    ∃ r s1, initializeVersioning cfg s = .ok (r, s1) ∧
      getStoredVersion s1 = some sv ∧
      r.migrationResult.success = false := by
  have hne : decide (cv ≠ 0) = true := decide_eq_true (by omega)
  have hlt2 : decide (cv < 0) = true := decide_eq_true hlt
  have hstatus : checkVersionStatus cfg s =
      .ok ⟨false, decide (cv ≠ 0), some sv, cfg.appVersion,
        some (decide (cv < 0)), some (decide (cv > 0))⟩ := by
    unfold checkVersionStatus
    simp only [hm]
    rw [if_neg hnz]
    simp only [hcv]
  have hneeded : checkMigrationNeeded cfg (some sv) = .ok true := by
    simp only [checkMigrationNeeded]
    rw [if_neg hnz]
    simp only [hcv, hne]
  refine ⟨⟨false, decide (cv ≠ 0), some sv, cfg.appVersion,
           some (decide (cv < 0)), some (decide (cv > 0)), true,
           (executeMigrations cfg sv s).1⟩,
          (executeMigrations cfg sv s).2.1, ?_, ?_, hfail⟩
  · unfold initializeVersioning
    simp only [hstatus, hne, hlt2, Option.getD_some, Bool.and_self, if_true,
      hneeded, hfail, Bool.false_eq_true, if_false]
  · rw [executeMigrations_marker cfg hpres sv s]
    exact hm

/-- Config whose single migrating release has a registered procedure that
reports failure without touching the store. -/
def c2Config : MigrationConfig :=
  { appVersion := "1.1.0",
    history := [{ version := "1.0.0", requiresMigration := false },
                { version := "1.1.0", requiresMigration := true,
                  migrateFrom := ["1.0.0"] }],
    migrations := fun v =>
      if v = "1.1.0" then
        some (fun _ _ st =>
          (.ok { success := false, affectedKeys := some ["companies"],
                 error := some ⟨"disk full", ""⟩ }, st))
      else none }

/-- Witness for C2 at `c2Config`: after a failed run the marker still holds
`"1.0.0"`. -/
theorem C2_witness :
    markerAfter c2Config [("app_version", "1.0.0")] = some "1.0.0" := by
  have hpres : preservesMarker c2Config := by
    intro v p h f t st
    by_cases hv : v = "1.1.0"
    · subst hv
      simp [c2Config] at h
      subst h
      rfl
    · simp [c2Config, hv] at h
  obtain ⟨r, s1, h1, h2, _⟩ := C2_failed_migration_preserves_marker c2Config
    [("app_version", "1.0.0")] "1.0.0" (-1) (by decide) (by decide)
    (by decide) (by decide) hpres (by decide)
  unfold markerAfter
  rw [h1]
  exact h2

/-! ### C3: when the marker is actually written -/

theorem initializeVersioning_else {cfg : MigrationConfig} {s : RawStore}
    {status : VersionStatus}
    (hst : checkVersionStatus cfg s = .ok status)
    (hcond : (status.updated && status.isNewer.getD false) = false) :
    initializeVersioning cfg s = finishNoMigration cfg status s := by
  unfold initializeVersioning
  simp only [hst, hcond, Bool.false_eq_true, if_false]

/-- The pre-state cases in which part_007 actually writes the marker: first
run (absent or empty marker) — write; stored equals compiled-in — no write;
downgrade (stored strictly newer) — write; upgrade — write exactly when the
migration run reports success.  `none` encodes the states on which
`initializeVersioning` throws instead. -/
def markerWriteCases (cfg : MigrationConfig) (s : RawStore) : Option Bool :=
  match getStoredVersion s with
  | none => some true
  | some sv =>
    if sv = "" then some true
    else
      match compareVersions sv cfg.appVersion with
      | .error _ => none
      | .ok c =>
        if c = 0 then some false
        else if c > 0 then some true
        else some (executeMigrations cfg sv s).1.success

/-- C3 (amended): with procedures that never touch the marker key,
`initializeVersioning` writes the stored version marker exactly in the cases
of `markerWriteCases`: immediately on first run, after a migration run that
reports overall success, **and also on every update where the compiled-in
version is older than the stored version (downgrade)** — refuting the claim
that the downgrade case leaves the marker unwritten; when nothing is written
the marker is exactly its old value. -/
theorem C3_marker_writes (cfg : MigrationConfig) (s : RawStore) (w : Bool)
    (hpres : preservesMarker cfg)
    (hw : markerWriteCases cfg s = some w) :
    ∃ r s1, initializeVersioning cfg s = .ok (r, s1) ∧
      getStoredVersion s1 =
        (if w then some cfg.appVersion else getStoredVersion s) := by
  unfold markerWriteCases at hw
  cases hm : getStoredVersion s with
  | none =>
    simp only [hm] at hw
    have hwt : w = true := (Option.some.inj hw).symm
    subst hwt
    have hstatus : checkVersionStatus cfg s =
        .ok ⟨true, false, none, cfg.appVersion, none, none⟩ := by
      unfold checkVersionStatus
      simp only [hm]
    refine ⟨_, _, initializeVersioning_else hstatus rfl, ?_⟩
    simp only [if_true]
    exact getItem_setItem_self _ _ _
  | some sv =>
    simp only [hm] at hw
    by_cases hz : sv = ""
    · rw [if_pos hz] at hw
      have hwt : w = true := (Option.some.inj hw).symm
      subst hwt
      have hstatus : checkVersionStatus cfg s =
          .ok ⟨true, false, none, cfg.appVersion, none, none⟩ := by
        unfold checkVersionStatus
        simp only [hm]
        rw [if_pos hz]
      refine ⟨_, _, initializeVersioning_else hstatus rfl, ?_⟩
      simp only [if_true]
      exact getItem_setItem_self _ _ _
    · rw [if_neg hz] at hw
      cases hcv : compareVersions sv cfg.appVersion with
      | error e =>
        simp only [hcv] at hw
        cases hw
      | ok c =>
        simp only [hcv] at hw
        have hstatus : checkVersionStatus cfg s =
            .ok ⟨false, decide (c ≠ 0), some sv, cfg.appVersion,
              some (decide (c < 0)), some (decide (c > 0))⟩ := by
          unfold checkVersionStatus
          simp only [hm]
          rw [if_neg hz]
          simp only [hcv]
        by_cases hc0 : c = 0
        · rw [if_pos hc0] at hw
          have hwt : w = false := (Option.some.inj hw).symm
          subst hwt
          have hcond : (decide (c ≠ 0) && (some (decide (c < 0))).getD false)
              = false := by
            simp [hc0]
          refine ⟨_, _, initializeVersioning_else hstatus hcond, ?_⟩
          have hfr : (false || decide (c ≠ 0)) = false := by simp [hc0]
          simp only [finishNoMigration, hfr, Bool.false_eq_true, if_false]
          exact hm
        · rw [if_neg hc0] at hw
          by_cases hpos : c > 0
          · rw [if_pos hpos] at hw
            have hwt : w = true := (Option.some.inj hw).symm
            subst hwt
            have hcond : (decide (c ≠ 0) && (some (decide (c < 0))).getD false)
                = false := by
              simp
              omega
            refine ⟨_, _, initializeVersioning_else hstatus hcond, ?_⟩
            have hfr : (false || decide (c ≠ 0)) = true := by
              simp [hc0]
            simp only [finishNoMigration, hfr, if_true]
            exact getItem_setItem_self _ _ _
          · rw [if_neg hpos] at hw
            have hwv : w = (executeMigrations cfg sv s).1.success :=
              (Option.some.inj hw).symm
            have hne : decide (c ≠ 0) = true := decide_eq_true hc0
            have hlt2 : decide (c < 0) = true := decide_eq_true (by omega)
            have hneeded : checkMigrationNeeded cfg (some sv) = .ok true := by
              simp only [checkMigrationNeeded]
              rw [if_neg hz]
              simp only [hcv, hne]
            refine ⟨⟨false, decide (c ≠ 0), some sv, cfg.appVersion,
                     some (decide (c < 0)), some (decide (c > 0)), true,
                     (executeMigrations cfg sv s).1⟩,
                    if (executeMigrations cfg sv s).1.success then
                      saveCurrentVersion cfg (executeMigrations cfg sv s).2.1
                    else (executeMigrations cfg sv s).2.1, ?_, ?_⟩
            · unfold initializeVersioning
              simp only [hstatus, hne, hlt2, Option.getD_some, Bool.and_self,
                if_true, hneeded]
            · by_cases hsuc : (executeMigrations cfg sv s).1.success = true
              · simp only [hsuc, if_true, hwv]
                exact getItem_setItem_self _ _ _
              · have hsuc2 : (executeMigrations cfg sv s).1.success = false := by
                  cases hb : (executeMigrations cfg sv s).1.success
                  · rfl
                  · exact absurd hb hsuc
                simp only [hsuc2, Bool.false_eq_true, if_false, hwv]
                rw [executeMigrations_marker cfg hpres sv s]
                exact hm

/-- Downgrade config for the C3 counterexample: compiled-in version older
than the stored marker, empty history, no procedures. -/
def c3Config : MigrationConfig :=
  { appVersion := "1.0.0-alpha", history := [], migrations := fun _ => none }

/-- Counterexample to C3 as stated: with stored marker `"1.1.0"` and
compiled-in version `"1.0.0-alpha"` (a downgrade), `initializeVersioning`
*does* write the marker — the post-state marker is the compiled-in version,
not the untouched old value — although this is neither a first run nor a
successful migration run. -/
theorem C3_counterexample :
    getStoredVersion [("app_version", "1.1.0")] = some "1.1.0" ∧
    markerAfter c3Config [("app_version", "1.1.0")] = some "1.0.0-alpha" := by
  constructor <;> decide

/-- Witness for the amended C3 theorem at a concrete downgrade input. -/
theorem C3_witness :
    markerAfter c3Config [("app_version", "2.0.0")] = some "1.0.0-alpha" := by
  have hpres : preservesMarker c3Config := by
    intro v p h
    simp [c3Config] at h
  obtain ⟨r, s1, h1, h2⟩ := C3_marker_writes c3Config
    [("app_version", "2.0.0")] true hpres (by decide)
  unfold markerAfter
  rw [h1]
  simpa using h2

/-! ### C6: the public entry point can throw -/

/-- C6 (amended): `initializeVersioning` is *not* exception-free.  With a
valid compiled-in version it throws exactly when the stored marker is
present, non-empty, and fails to parse as `MAJOR.MINOR.PATCH[-LABEL]`: the
parse error thrown inside `checkVersionStatus → compareVersions →
parseVersion` propagates uncaught through the public entry point (part_007
has no try/catch); on every other store state it returns normally. -/
theorem C6_initializeVersioning_throws_iff (cfg : MigrationConfig)
    (s : RawStore) (pa : ParsedVersion)
    (happ : parseVersion cfg.appVersion = .ok pa) :
    isThrow (initializeVersioning cfg s) = true ↔
      ∃ sv, getStoredVersion s = some sv ∧ sv ≠ "" ∧ versionMatch sv = none := by
  cases hm : getStoredVersion s with
  | none =>
    have hstatus : checkVersionStatus cfg s =
        .ok ⟨true, false, none, cfg.appVersion, none, none⟩ := by
      unfold checkVersionStatus
      simp only [hm]
    rw [initializeVersioning_else hstatus rfl]
    simp only [finishNoMigration, isThrow, Bool.false_eq_true, false_iff]
    rintro ⟨sv2, he, _, _⟩
    cases he
  | some sv =>
    by_cases hz : sv = ""
    · have hstatus : checkVersionStatus cfg s =
          .ok ⟨true, false, none, cfg.appVersion, none, none⟩ := by
        unfold checkVersionStatus
        simp only [hm]
        rw [if_pos hz]
      rw [initializeVersioning_else hstatus rfl]
      simp only [finishNoMigration, isThrow, Bool.false_eq_true, false_iff]
      rintro ⟨sv2, he, hz2, _⟩
      have he2 : sv = sv2 := Option.some.inj he
      exact hz2 (by rw [← he2, hz])
    · cases hvm : versionMatch sv with
      | none =>
        have hpv : parseVersion sv =
            .error ⟨"Invalid version format: " ++ sv, ""⟩ := by
          unfold parseVersion
          rw [hvm]
        have hcv : ∀ b, compareVersions sv b =
            .error ⟨"Invalid version format: " ++ sv, ""⟩ := by
          intro b
          unfold compareVersions
          rw [hpv]
          rfl
        have hstatus : checkVersionStatus cfg s =
            .error ⟨"Invalid version format: " ++ sv, ""⟩ := by
          unfold checkVersionStatus
          simp only [hm]
          rw [if_neg hz]
          simp only [hcv]
        have hth : isThrow (initializeVersioning cfg s) = true := by
          unfold initializeVersioning
          simp only [hstatus]
          rfl
        rw [hth]
        simp only [true_iff]
        exact ⟨sv, rfl, hz, hvm⟩
      | some p =>
        have hpv : parseVersion sv = .ok p := by
          unfold parseVersion
          rw [hvm]
        have hcv : compareVersions sv cfg.appVersion =
            .ok (compareParsed p pa) := by
          unfold compareVersions
          rw [hpv, happ]
          rfl
        have hstatus : checkVersionStatus cfg s =
            .ok ⟨false, decide (compareParsed p pa ≠ 0), some sv,
              cfg.appVersion, some (decide (compareParsed p pa < 0)),
              some (decide (compareParsed p pa > 0))⟩ := by
          unfold checkVersionStatus
          simp only [hm]
          rw [if_neg hz]
          simp only [hcv]
        have hneeded : checkMigrationNeeded cfg (some sv) =
            .ok (decide (compareParsed p pa ≠ 0)) := by
          simp only [checkMigrationNeeded]
          rw [if_neg hz]
          simp only [hcv]
        have hok : isThrow (initializeVersioning cfg s) = false := by
          unfold initializeVersioning
          simp only [hstatus]
          by_cases hcond : (decide (compareParsed p pa ≠ 0) &&
              (some (decide (compareParsed p pa < 0))).getD false) = true
          · simp only [hcond, if_true, hneeded]
            by_cases hn : decide (compareParsed p pa ≠ 0) = true
            · simp only [hn, if_true]
              rfl
            · have hn2 : decide (compareParsed p pa ≠ 0) = false := by
                cases hb : decide (compareParsed p pa ≠ 0)
                · rfl
                · exact absurd hb hn
              simp only [hn2, Bool.false_eq_true, if_false,
                finishNoMigration, isThrow]
          · have hcond2 : (decide (compareParsed p pa ≠ 0) &&
                (some (decide (compareParsed p pa < 0))).getD false) = false := by
              cases hb : (decide (compareParsed p pa ≠ 0) &&
                  (some (decide (compareParsed p pa < 0))).getD false)
              · rfl
              · exact absurd hb hcond
            simp only [hcond2, Bool.false_eq_true, if_false,
              finishNoMigration, isThrow]
        rw [hok]
        simp only [Bool.false_eq_true, false_iff]
        rintro ⟨sv2, he, _, hvm2⟩
        have he2 : sv2 = sv := (Option.some.inj he).symm
        subst he2
        rw [hvm] at hvm2
        cases hvm2

/-- Config with a valid compiled-in version used for the C6 counterexample
and witness. -/
def c6Config : MigrationConfig :=
  { appVersion := "1.0.0-alpha", history := [], migrations := fun _ => none }

/-- Counterexample to C6 as stated: with the stored marker `"garbage"` (which
does not parse as a version), the public entry point `initializeVersioning`
throws instead of capturing the failure in its returned result. -/
theorem C6_counterexample :
    isThrow (initializeVersioning c6Config [("app_version", "garbage")]) =
      true := by
  decide

/-- Witness for the amended C6 theorem at the concrete marker
`"not.a.version"`. -/
theorem C6_witness :
    isThrow (initializeVersioning c6Config [("app_version", "not.a.version")]) =
      true :=
  (C6_initializeVersioning_throws_iff c6Config
      [("app_version", "not.a.version")] ⟨1, 0, 0, some "alpha", "1.0.0-alpha"⟩
      (by decide)).mpr
    ⟨"not.a.version", by decide, by decide, by decide⟩

/-! ### Generic string-keyed association updates (object/store writes) -/

/-- Keyed update: replace the value at an existing key in place, else append
(the shared shape of `localStorage.setItem` and of JavaScript property
writes on ordered objects). -/
def updAssoc {α : Type} (l : List (String × α)) (k : String) (v : α) :
    List (String × α) :=
  if l.any (fun e => e.fst == k) then
    l.map (fun e => if e.fst == k then (k, v) else e)
  else l ++ [(k, v)]

/-- Keyed lookup, first match. -/
def lookupAssoc {α : Type} : List (String × α) → String → Option α
  | [], _ => none
  | e :: es, k => if e.fst == k then some e.snd else lookupAssoc es k

theorem lookupAssoc_map_upd {α : Type} (k : String) (v : α) :
    ∀ {l : List (String × α)}, l.any (fun e => e.fst == k) = true →
      lookupAssoc (l.map (fun e => if e.fst == k then (k, v) else e)) k =
        some v := by
  intro l
  induction l with
  | nil => intro h; simp at h
  | cons e es ih =>
    intro h
    by_cases he : (e.fst == k) = true
    · simp [lookupAssoc, he]
    · have h2 : es.any (fun e => e.fst == k) = true := by
        simpa [he] using h
      simpa [lookupAssoc, he] using ih h2

theorem lookupAssoc_append_single {α : Type} (k : String) (v : α) :
    ∀ {l : List (String × α)}, l.any (fun e => e.fst == k) = false →
      lookupAssoc (l ++ [(k, v)]) k = some v := by
  intro l
  induction l with
  | nil => intro _; simp [lookupAssoc]
  | cons e es ih =>
    intro h
    have he : (e.fst == k) = false := by
      cases hb : (e.fst == k)
      · rfl
      · simp [List.any_cons, hb] at h
    have h2 : es.any (fun e => e.fst == k) = false := by
      simpa [he] using h
    simpa [lookupAssoc, he] using ih h2

theorem lookupAssoc_upd_self {α : Type} (k : String) (v : α)
    (l : List (String × α)) : lookupAssoc (updAssoc l k v) k = some v := by
  unfold updAssoc
  by_cases h : l.any (fun e => e.fst == k) = true
  · rw [if_pos h]
    exact lookupAssoc_map_upd k v h
  · have h2 : l.any (fun e => e.fst == k) = false := by
      cases hb : l.any (fun e => e.fst == k)
      · rfl
      · exact absurd hb h
    rw [if_neg (by rw [h2]; exact Bool.false_ne_true)]
    exact lookupAssoc_append_single k v h2

theorem lookupAssoc_cons {α : Type} (x : String × α) (xs : List (String × α))
    (k : String) :
    lookupAssoc (x :: xs) k =
      if x.fst == k then some x.snd else lookupAssoc xs k := rfl

theorem lookupAssoc_map_ne {α : Type} {k k2 : String} (v : α)
    (hkk : (k == k2) = false) :
    ∀ l : List (String × α),
      lookupAssoc (l.map (fun e => if e.fst == k then (k, v) else e)) k2 =
        lookupAssoc l k2 := by
  intro l
  induction l with
  | nil => rfl
  | cons e es ih =>
    simp only [List.map_cons]
    by_cases he : (e.fst == k) = true
    · rw [if_pos he, lookupAssoc_cons, lookupAssoc_cons]
      rw [if_neg (by simp [hkk]), if_neg (by rw [eq_of_beq he]; simp [hkk])]
      exact ih
    · rw [if_neg he, lookupAssoc_cons, lookupAssoc_cons]
      by_cases he4 : (e.fst == k2) = true
      · rw [if_pos he4, if_pos he4]
      · rw [if_neg he4, if_neg he4]
        exact ih

theorem lookupAssoc_append_ne {α : Type} {k k2 : String} (v : α)
    (hkk : (k == k2) = false) :
    ∀ l : List (String × α),
      lookupAssoc (l ++ [(k, v)]) k2 = lookupAssoc l k2 := by
  intro l
  induction l with
  | nil => simp [lookupAssoc, hkk]
  | cons e es ih =>
    rw [List.cons_append, lookupAssoc_cons, lookupAssoc_cons]
    by_cases he4 : (e.fst == k2) = true
    · rw [if_pos he4, if_pos he4]
    · rw [if_neg he4, if_neg he4]
      exact ih

theorem lookupAssoc_upd_ne {α : Type} {k k2 : String} (v : α) (h : k2 ≠ k)
    (l : List (String × α)) :
    lookupAssoc (updAssoc l k v) k2 = lookupAssoc l k2 := by
  have hkk : (k == k2) = false := by
    cases hb : (k == k2)
    · rfl
    · exact absurd (eq_of_beq hb).symm h
  unfold updAssoc
  by_cases hany : l.any (fun e => e.fst == k) = true
  · rw [if_pos hany]
    exact lookupAssoc_map_ne v hkk l
  · rw [if_neg hany]
    exact lookupAssoc_append_ne v hkk l

theorem map_self {α : Type} {g : α → α} :
    ∀ {l : List α}, (∀ e ∈ l, g e = e) → l.map g = l := by
  intro l
  induction l with
  | nil => intro _; rfl
  | cons e es ih =>
    intro h
    simp only [List.map_cons, h e (by simp), ih (fun a ha => h a (by simp [ha]))]

theorem any_false_mem {α : Type} {p : α → Bool} :
    ∀ {l : List α}, l.any p = false → ∀ x ∈ l, p x = false := by
  intro l
  induction l with
  | nil => intro _ x hx; cases hx
  | cons e es ih =>
    intro h x hx
    have he : p e = false := by
      cases hb : p e
      · rfl
      · simp [List.any_cons, hb] at h
    have h2 : es.any p = false := by simpa [he] using h
    rcases List.mem_cons.mp hx with hx | hx
    · rw [hx]; exact he
    · exact ih h2 x hx

theorem mem_updAssoc_key {α : Type} {k : String} {v : α}
    {l : List (String × α)} {e : String × α}
    (he : e ∈ updAssoc l k v) (hf : e.fst = k) : e = (k, v) := by
  unfold updAssoc at he
  by_cases hany : l.any (fun e => e.fst == k) = true
  · rw [if_pos hany] at he
    obtain ⟨e0, _, he0⟩ := List.mem_map.mp he
    by_cases h0 : (e0.fst == k) = true
    · rw [if_pos h0] at he0
      exact he0.symm
    · rw [if_neg h0] at he0
      subst he0
      have h3 : (e0.fst == k) = true := by rw [hf]; simp
      exact absurd h3 h0
  · rw [if_neg hany] at he
    rcases List.mem_append.mp he with hin | hin
    · have h2 : l.any (fun e => e.fst == k) = false := by
        cases hb : l.any (fun e => e.fst == k)
        · rfl
        · exact absurd hb hany
      have h3 := any_false_mem h2 e hin
      rw [hf] at h3
      simp at h3
    · simpa using hin

theorem any_map_upd {α : Type} (k : String) (v : α) :
    ∀ {l : List (String × α)}, l.any (fun e => e.fst == k) = true →
      (l.map (fun e => if e.fst == k then (k, v) else e)).any
        (fun e => e.fst == k) = true := by
  intro l
  induction l with
  | nil => intro h; simp at h
  | cons e es ih =>
    intro h
    simp only [List.map_cons, List.any_cons]
    by_cases he : (e.fst == k) = true
    · rw [if_pos he]
      simp
    · rw [if_neg he]
      have h2 : es.any (fun e => e.fst == k) = true := by
        simpa [he] using h
      rw [ih h2]
      simp

theorem updAssoc_any {α : Type} (k : String) (v : α)
    (l : List (String × α)) :
    (updAssoc l k v).any (fun e => e.fst == k) = true := by
  unfold updAssoc
  by_cases hany : l.any (fun e => e.fst == k) = true
  · rw [if_pos hany]
    exact any_map_upd k v hany
  · rw [if_neg hany]
    simp

theorem updAssoc_idem {α : Type} (k : String) (v : α)
    (l : List (String × α)) :
    updAssoc (updAssoc l k v) k v = updAssoc l k v := by
  have hany := updAssoc_any k v l
  rw [updAssoc, if_pos hany]
  refine map_self ?_
  intro e he
  by_cases hek : (e.fst == k) = true
  · rw [if_pos hek]
    exact (mem_updAssoc_key he (eq_of_beq hek)).symm
  · rw [if_neg hek]

/-! ### JSON-level store for the migration primitives (src/unnamed/part_006)

The primitives read stored strings through `JSON.parse` and write them back
through `JSON.stringify`.  We classify each stored string by its parse
status: `JDoc.ok j` stands for any string whose parse yields the value `j`
(`JSON.parse (JSON.stringify j) = j` makes this representation closed under
the write-back), and `JDoc.bad raw` for a string on which `JSON.parse`
throws — including the empty string, the only falsy stored string. -/

/-- JSON values.  Numbers are abstracted to integers: no primitive inspects
numeric values, only `null`-ness and array/object structure. -/
inductive Json where
  | null : Json
  | bool : Bool → Json
  | num : Int → Json
  | str : String → Json
  | arr : List Json → Json
  | obj : List (String × Json) → Json
deriving Repr

/-- A stored string classified by JSON parse status. -/
inductive JDoc where
  | ok : Json → JDoc
  | bad : String → JDoc
deriving Repr

/-- The store seen by the primitives. -/
abbrev JStore := List (String × JDoc)

/-- `localStorage.getItem` at this level. -/
def getItemJ (k : String) (s : JStore) : Option JDoc :=
  lookupAssoc s k

/-- `localStorage.setItem` at this level. -/
def setItemJ (k : String) (v : JDoc) (s : JStore) : JStore :=
  updAssoc s k v

/-- JavaScript falsiness of the raw stored string (`!companiesJson`,
`!cacheData`): among stored strings only the empty string is falsy, and the
empty string is not valid JSON. -/
def falsyDoc : JDoc → Bool
  | .bad raw => raw == ""
  | .ok _ => false

/-- A string that is a canonical array index ("0", "17" — but not "01",
"+1" or non-numeric). -/
def canonIndex (f : String) : Option Nat :=
  match f.toNat? with
  | some n => if toString n = f then some n else none
  | none => none

/-- JavaScript property read `value[f]` on a parsed JSON value (`none` is
`undefined`).  Arrays and strings expose `length` and index properties
(string indexing and length are modelled at the code-point level; the
UTF-16 distinction never matters to the primitives' control flow); other
primitives have no own properties.  Inherited prototype properties are not
modelled. -/
def getProp : Json → String → Option Json
  | .obj fields, f => lookupAssoc fields f
  | .arr items, f =>
    if f == "length" then some (.num (Int.ofNat items.length))
    else
      match canonIndex f with
      | some i => items[i]?
      | none => none
  | .str s1, f =>
    if f == "length" then some (.num (Int.ofNat s1.length))
    else
      match canonIndex f with
      | some i => (s1.data[i]?).map (fun c => Json.str (String.mk [c]))
      | none => none
  | _, _ => none

/-- The own enumerable properties of a value, in order, as taken by object
spread `{...value}`: an object's fields; an array's index properties; a
string's character properties; nothing for the other primitives. -/
def spreadFields : Json → List (String × Json)
  | .obj fields => fields
  | .arr items => items.enum.map (fun p => (toString p.fst, p.snd))
  | .str s1 =>
    s1.data.enum.map (fun p => (toString p.fst, Json.str (String.mk [p.snd])))
  | _ => []

/-- Property write in an object literal `{...spread, [f]: v}` (and property
assignment): an existing key keeps its position with the value replaced, a
new key is appended. -/
def setFieldJs (l : List (String × Json)) (f : String) (v : Json) :
    List (String × Json) :=
  updAssoc l f v

/-- Nullish coalescing `x ?? d` applied to a property read (`none` is
`undefined`). -/
def jsCoalesce (v : Option Json) (d : Json) : Json :=
  match v with
  | some .null => d
  | some j => j
  | none => d

/-- The `companies` collection key (`LOCAL_STORAGE_KEYS.COMPANIES`). -/
def COMPANIES_KEY : String := "companies"

/-- The result object of `companyMigrations.addField`. -/
structure AddFieldResult where
  updated : Nat
  fieldAdded : Option String := none
deriving Repr, DecidableEq

/-- One record update of `addField`:
`{...company, [fieldName]: company[fieldName] ?? defaultValue}`.  On a
`null` record the property read `company[fieldName]` throws a `TypeError`
(property access on `null`); every other JSON value supports property
access (primitives are boxed), so the overlay succeeds.  The thrown message
is modelled schematically. -/
def addFieldRecord (fieldName : String) (defaultValue : Json)
    (company : Json) : Except JsError Json :=
  match company with
  | .null =>
    .error ⟨"Cannot read properties of null (reading " ++ fieldName ++ ")",
      ""⟩
  | _ =>
    .ok (.obj (setFieldJs (spreadFields company) fieldName
      (jsCoalesce (getProp company fieldName) defaultValue)))

/-- `companies.map(company => ({...company, [fieldName]: ...}))`: JavaScript
`map` applies the callback in order and the first throw aborts the whole
call. -/
def mapAddField (fieldName : String) (defaultValue : Json) :
    List Json → Except JsError (List Json)
  | [] => .ok []
  | c :: cs =>
    match addFieldRecord fieldName defaultValue c with
    | .error e => .error e
    | .ok c1 =>
      match mapAddField fieldName defaultValue cs with
      | .error e => .error e
      | .ok cs1 => .ok (c1 :: cs1)

/-- `companyMigrations.addField(fieldName, defaultValue, logger)` from
part_006: a missing or falsy companies string returns `{updated: 0}` with no
write; an unparsable string rethrows the `JSON.parse` error (the source's
catch logs and rethrows, so the throw escapes with no write); a parsed
non-array rethrows the `companies.map` type error likewise; a throw from the
per-record overlay (a `null` record) is rethrown likewise with no write;
otherwise every record is overlaid with the field — the default written only
where the property is absent or null — and the array is written back.
Thrown error messages are modelled schematically; the store component is the
post-state in every case. -/
def addField (fieldName : String) (defaultValue : Json) (s : JStore) :
    (Except JsError AddFieldResult) × JStore :=
  match getItemJ COMPANIES_KEY s with
  | none => (.ok { updated := 0 }, s)
  | some d =>
    if falsyDoc d then (.ok { updated := 0 }, s)
    else
      match d with
      | .bad raw => (.error ⟨"Unexpected token in JSON: " ++ raw, ""⟩, s)
      | .ok j =>
        match j with
        | .arr companies =>
          match mapAddField fieldName defaultValue companies with
          | .error e => (.error e, s)
          | .ok updatedCompanies =>
            (.ok { updated := updatedCompanies.length,
                   fieldAdded := some fieldName },
             setItemJ COMPANIES_KEY (.ok (.arr updatedCompanies)) s)
        | _ => (.error ⟨"companies.map is not a function", ""⟩, s)

theorem jsCoalesce_coalesce (x : Option Json) (d : Json) :
    jsCoalesce (some (jsCoalesce x d)) d = jsCoalesce x d := by
  cases x with
  | none => cases d <;> rfl
  | some j => cases j <;> first | (cases d <;> rfl) | rfl

theorem addFieldRecord_fix (fieldName : String) (defaultValue : Json)
    (L0 : List (String × Json)) (v0 : Option Json) :
    addFieldRecord fieldName defaultValue
        (.obj (setFieldJs L0 fieldName (jsCoalesce v0 defaultValue))) =
      .ok (.obj (setFieldJs L0 fieldName (jsCoalesce v0 defaultValue))) := by
  simp only [addFieldRecord, spreadFields, getProp, setFieldJs]
  rw [lookupAssoc_upd_self, jsCoalesce_coalesce, updAssoc_idem]

theorem addFieldRecord_idem (fieldName : String) (defaultValue : Json) :
    ∀ {company c1 : Json},
      addFieldRecord fieldName defaultValue company = .ok c1 →
      addFieldRecord fieldName defaultValue c1 = .ok c1 := by
  intro company c1 h
  cases company with
  | null => simp [addFieldRecord] at h
  | bool b =>
    simp only [addFieldRecord] at h
    injection h with h2
    subst h2
    exact addFieldRecord_fix fieldName defaultValue _ _
  | num n =>
    simp only [addFieldRecord] at h
    injection h with h2
    subst h2
    exact addFieldRecord_fix fieldName defaultValue _ _
  | str s1 =>
    simp only [addFieldRecord] at h
    injection h with h2
    subst h2
    exact addFieldRecord_fix fieldName defaultValue _ _
  | arr items =>
    simp only [addFieldRecord] at h
    injection h with h2
    subst h2
    exact addFieldRecord_fix fieldName defaultValue _ _
  | obj fields =>
    simp only [addFieldRecord] at h
    injection h with h2
    subst h2
    exact addFieldRecord_fix fieldName defaultValue _ _

theorem mapAddField_idem (fieldName : String) (defaultValue : Json) :
    ∀ {cs cs1 : List Json},
      mapAddField fieldName defaultValue cs = .ok cs1 →
      mapAddField fieldName defaultValue cs1 = .ok cs1 := by
  intro cs
  induction cs with
  | nil =>
    intro cs1 h
    simp only [mapAddField] at h
    injection h with h2
    subst h2
    rfl
  | cons c rest ih =>
    intro cs1 h
    simp only [mapAddField] at h
    cases hr : addFieldRecord fieldName defaultValue c with
    | error e =>
      simp only [hr] at h
      cases h
    | ok c1 =>
      simp only [hr] at h
      cases hm : mapAddField fieldName defaultValue rest with
      | error e =>
        simp only [hm] at h
        cases h
      | ok rest1 =>
        simp only [hm] at h
        injection h with h2
        subst h2
        simp only [mapAddField, addFieldRecord_idem fieldName defaultValue hr,
          ih hm]

/-- C8: `addField` is idempotent on the persisted store: applying it twice in
succession leaves the store in exactly the state after applying it once (the
default is written only where the field is absent or null, a second pass
rewrites each record unchanged, and every error path — falsy or unparsable
collection, non-array collection, `null` record — performs no write at
all). -/
theorem C8_addField_idempotent (fieldName : String) (defaultValue : Json)
    (s : JStore) :
    (addField fieldName defaultValue (addField fieldName defaultValue s).2).2 =
      (addField fieldName defaultValue s).2 := by
  cases hd : getItemJ COMPANIES_KEY s with
  | none =>
    unfold addField
    simp only [hd]
  | some d =>
    by_cases hf : falsyDoc d = true
    · unfold addField
      simp only [hd, hf, if_true]
    · have hf2 : falsyDoc d = false := by
        cases hb : falsyDoc d
        · rfl
        · exact absurd hb hf
      cases d with
      | bad raw =>
        unfold addField
        simp only [hd, hf2, Bool.false_eq_true, if_false]
      | ok j =>
        cases j with
        | arr companies =>
          cases hmap : mapAddField fieldName defaultValue companies with
          | error e =>
            have h1 : (addField fieldName defaultValue s).2 = s := by
              unfold addField
              simp only [hd, hf2, Bool.false_eq_true, if_false, hmap]
            rw [h1]
            exact h1
          | ok cs1 =>
            have h1 : (addField fieldName defaultValue s).2 =
                setItemJ COMPANIES_KEY (.ok (.arr cs1)) s := by
              unfold addField
              simp only [hd, hf2, Bool.false_eq_true, if_false, hmap]
            rw [h1]
            have h2 : getItemJ COMPANIES_KEY
                (setItemJ COMPANIES_KEY (.ok (.arr cs1)) s) =
                some (.ok (.arr cs1)) := lookupAssoc_upd_self _ _ _
            unfold addField
            simp only [h2, falsyDoc, Bool.false_eq_true, if_false,
              mapAddField_idem fieldName defaultValue hmap]
            exact updAssoc_idem _ _ _
        | null =>
          unfold addField
          simp only [hd, hf2, Bool.false_eq_true, if_false]
        | bool b =>
          unfold addField
          simp only [hd, hf2, Bool.false_eq_true, if_false]
        | num n =>
          unfold addField
          simp only [hd, hf2, Bool.false_eq_true, if_false]
        | str s1 =>
          unfold addField
          simp only [hd, hf2, Bool.false_eq_true, if_false]
        | obj fields =>
          unfold addField
          simp only [hd, hf2, Bool.false_eq_true, if_false]

/-! ### transformReviews (part_006 lines 134-175) -/

/-- The result object of `transformReviews`. -/
structure TransformResult where
  processed : Nat
  updated : Nat
  failed : Nat
deriving Repr, DecidableEq

/-- `key.startsWith("reviews_")`. -/
def startsWithReviews (k : String) : Bool :=
  k.data.take 8 == "reviews_".data

/-- `reviewCacheHelpers.findAllKeys()`: every store key starting with
`reviews_`, in store order. -/
def findAllKeys (s : JStore) : List String :=
  (s.filter (fun e => startsWithReviews e.fst)).map (fun e => e.fst)

/-- JavaScript truthiness of a parsed JSON value (the `cache &&` guard). -/
def truthyJson : Json → Bool
  | .null => false
  | .bool b => b
  | .num n => n != 0
  | .str s1 => s1 != ""
  | .arr _ => true
  | .obj _ => true

/-- `cache.reviews.map(transformer)` with a possibly-throwing transformer:
applied in order, the first throw propagates. -/
def mapTransform (t : Json → Except JsError Json) :
    List Json → Except JsError (List Json)
  | [] => .ok []
  | r :: rs =>
    match t r with
    | .error e => .error e
    | .ok r1 =>
      match mapTransform t rs with
      | .error e => .error e
      | .ok rs1 => .ok (r1 :: rs1)

/-- One iteration body of the `for (const key of cacheKeys)` loop of
`transformReviews`: read the entry (a falsy raw value `continue`s without
counting); a `JSON.parse` throw is caught by the per-key catch and counted as
failed; an entry that is not a truthy value with an array `reviews` property
is skipped silently; otherwise the reviews are mapped — a transformer throw
is caught and counted as failed — `reviews` and `lastMigrated` are written
back and `updated` is incremented.  (A truthy non-object with an array
`reviews` property cannot arise; the strict-mode property-assignment throw
in that dead branch is modelled as failed.)  Returns the new store and the
two counter increments `(updated?, failed?)`. -/
def transformStep (t : Json → Except JsError Json) (now : String)
    (k : String) (s : JStore) : JStore × Bool × Bool :=
  match getItemJ k s with
  | none => (s, false, false)
  | some (.bad raw) =>
    if raw == "" then (s, false, false) else (s, false, true)
  | some (.ok cache) =>
    if truthyJson cache then
      match getProp cache "reviews" with
      | some (.arr reviews) =>
        (match mapTransform t reviews with
         | .error _ => (s, false, true)
         | .ok transformed =>
           match cache with
           | .obj fields =>
             (setItemJ k
               (.ok (.obj (setFieldJs
                 (setFieldJs fields "reviews" (.arr transformed))
                 "lastMigrated" (.str now)))) s, true, false)
           | _ => (s, false, true))
      | _ => (s, false, false)
    else (s, false, false)

/-- The counting loop of `transformReviews`. -/
def transformLoop (t : Json → Except JsError Json) (now : String) :
    List String → JStore → Nat → Nat → JStore × Nat × Nat
  | [], s, upd, fail => (s, upd, fail)
  | k :: ks, s, upd, fail =>
    transformLoop t now ks (transformStep t now k s).1
      (if (transformStep t now k s).2.1 then upd + 1 else upd)
      (if (transformStep t now k s).2.2 then fail + 1 else fail)

/-- `reviewMigrations.transformReviews(transformer, logger)` from part_006;
`now` is the ambient clock value used for the `lastMigrated` stamp.  The
outer try/catch never fires (every per-key failure is caught inside the
loop), so the call always resolves. -/
def transformReviews (t : Json → Except JsError Json) (now : String)
    (s : JStore) : (Except JsError TransformResult) × JStore :=
  (.ok { processed := (findAllKeys s).length,
         updated := (transformLoop t now (findAllKeys s) s 0 0).2.1,
         failed := (transformLoop t now (findAllKeys s) s 0 0).2.2 },
   (transformLoop t now (findAllKeys s) s 0 0).1)

/-- Whether processing a stored entry throws inside the per-key try (and so
increments `failed`): a non-empty unparsable value, or a truthy entry with
an array `reviews` property whose transformation throws.  Missing/empty
entries and shape mismatches do **not** count. -/
def entryFails (t : Json → Except JsError Json) : JDoc → Bool
  | .bad raw => !(raw == "")
  | .ok cache =>
    if truthyJson cache then
      match getProp cache "reviews" with
      | some (.arr reviews) =>
        (match mapTransform t reviews with
         | .error _ => true
         | .ok _ =>
           match cache with
           | .obj _ => false
           | _ => true)
      | _ => false
    else false

theorem transformStep_fail (t : Json → Except JsError Json) (now k : String)
    (s : JStore) :
    (transformStep t now k s).2.2 =
      (match getItemJ k s with
       | some d => entryFails t d
       | none => false) := by
  unfold transformStep
  cases getItemJ k s with
  | none => rfl
  | some d =>
    cases d with
    | bad raw =>
      cases hb : (raw == "") <;> simp [entryFails, hb]
    | ok cache =>
      by_cases ht : truthyJson cache = true
      · simp only [entryFails, ht, if_true]
        cases hp : getProp cache "reviews" with
        | none => rfl
        | some r =>
          cases r with
          | arr reviews =>
            dsimp only
            cases mapTransform t reviews with
            | error e => rfl
            | ok ts => cases cache <;> rfl
          | null => rfl
          | bool b => rfl
          | num n => rfl
          | str s1 => rfl
          | obj fields => rfl
      · have ht2 : truthyJson cache = false := by
          cases hb : truthyJson cache
          · rfl
          · exact absurd hb ht
        simp [entryFails, ht2]

theorem transformStep_other (t : Json → Except JsError Json)
    (now k k2 : String) (s : JStore) (h : k2 ≠ k) :
    getItemJ k2 (transformStep t now k s).1 = getItemJ k2 s := by
  unfold transformStep
  cases getItemJ k s with
  | none => rfl
  | some d =>
    cases d with
    | bad raw =>
      dsimp only
      cases hb : (raw == "") <;> simp [hb]
    | ok cache =>
      by_cases ht : truthyJson cache = true
      · simp only [ht, if_true]
        cases getProp cache "reviews" with
        | none => rfl
        | some r =>
          cases r with
          | arr reviews =>
            dsimp only
            cases mapTransform t reviews with
            | error e => rfl
            | ok ts =>
              cases cache with
              | obj fields => exact lookupAssoc_upd_ne _ h s
              | null => rfl
              | bool b => rfl
              | num n => rfl
              | str s1 => rfl
              | arr a => rfl
          | null => rfl
          | bool b => rfl
          | num n => rfl
          | str s1 => rfl
          | obj fields => rfl
      · have ht2 : truthyJson cache = false := by
          cases hb : truthyJson cache
          · rfl
          · exact absurd hb ht
        simp [ht2]

theorem transformLoop_fail (t : Json → Except JsError Json) (now : String) :
    ∀ (ks : List String) (s0 s : JStore) (upd fail : Nat),
      ks.Nodup →
      (∀ k ∈ ks, getItemJ k s = getItemJ k s0) →
      (transformLoop t now ks s upd fail).2.2 =
        fail + ks.countP (fun k =>
          match getItemJ k s0 with
          | some d => entryFails t d
          | none => false) := by
  intro ks
  induction ks with
  | nil =>
    intro s0 s upd fail _ _
    simp [transformLoop]
  | cons k rest ih =>
    intro s0 s upd fail hnd hinv
    have hk := hinv k (by simp)
    have hfail := transformStep_fail t now k s
    rw [hk] at hfail
    have hinv2 : ∀ k2 ∈ rest,
        getItemJ k2 (transformStep t now k s).1 = getItemJ k2 s0 := by
      intro k2 hk2
      have hne : k2 ≠ k := by
        intro he
        subst he
        exact (List.nodup_cons.mp hnd).1 hk2
      rw [transformStep_other t now k k2 s hne]
      exact hinv k2 (by simp [hk2])
    unfold transformLoop
    rw [ih s0 (transformStep t now k s).1 _ _ (List.nodup_cons.mp hnd).2 hinv2]
    rw [List.countP_cons, hfail]
    cases hpk : (match getItemJ k s0 with
      | some d => entryFails t d
      | none => false) <;> simp [hpk] <;> omega

theorem getItemJ_of_mem_nodup : ∀ {s : JStore},
    (s.map (fun e => e.fst)).Nodup →
    ∀ {e : String × JDoc}, e ∈ s → getItemJ e.fst s = some e.snd := by
  intro s
  induction s with
  | nil => intro _ e he; cases he
  | cons x xs ih =>
    intro hnd e he
    simp only [List.map_cons] at hnd
    rcases List.mem_cons.mp he with he | he
    · subst he
      unfold getItemJ
      rw [lookupAssoc_cons, if_pos (by simp)]
    · have hx : x.fst ≠ e.fst := by
        intro hfe
        have h1 : e.fst ∈ xs.map (fun e => e.fst) :=
          List.mem_map_of_mem _ he
        exact (List.nodup_cons.mp hnd).1 (hfe ▸ h1)
      unfold getItemJ
      rw [lookupAssoc_cons, if_neg (by simp [hx])]
      exact ih (List.nodup_cons.mp hnd).2 he

/-- C9 (amended): on a store with unique keys, `transformReviews` always
resolves (skipped entries never fail the overall operation), reports
`processed` as the number of matched `reviews_` keys, and its `failed`
counter equals the number of matched entries whose per-key processing threw:
the non-empty unparsable entries plus the entries whose transformer threw.
Entries with a missing/empty value are skipped by the `continue` **without**
incrementing `failed`, refuting the original claim that every
unparsable-or-missing entry is counted. -/
theorem C9_transformReviews_failed_count (t : Json → Except JsError Json)
    (now : String) (s : JStore)
    (hnodup : (s.map (fun e => e.fst)).Nodup) :
    ∃ res, (transformReviews t now s).1 = .ok res ∧
      res.processed = (s.filter (fun e => startsWithReviews e.fst)).length ∧
      res.failed = (s.filter (fun e => startsWithReviews e.fst)).countP
        (fun e => entryFails t e.snd) := by
  refine ⟨_, rfl, ?_, ?_⟩
  · simp [findAllKeys]
  · show (transformLoop t now (findAllKeys s) s 0 0).2.2 = _
    have hkeys_nodup : (findAllKeys s).Nodup := by
      unfold findAllKeys
      exact List.Nodup.sublist
        (List.Sublist.map _ (List.filter_sublist _)) hnodup
    rw [transformLoop_fail t now (findAllKeys s) s s 0 0 hkeys_nodup
      (fun _ _ => rfl)]
    rw [Nat.zero_add]
    unfold findAllKeys
    rw [List.countP_map]
    refine List.countP_congr ?_
    intro e he
    have hes : e ∈ s := (List.mem_filter.mp he).1
    have hget := getItemJ_of_mem_nodup hnodup hes
    simp [Function.comp, hget]

/-- The `failed` counter of a `transformReviews` call (0 if it threw, which
never happens). -/
def failedOf (x : (Except JsError TransformResult) × JStore) : Nat :=
  match x.1 with
  | .ok r => r.failed
  | .error _ => 0

/-- Counterexample to C9 as stated: the single matched key `reviews_1` holds
the empty string — a "missing" entry in the claim's sense (`getItem` is
falsy, `continue` fires) — yet `failed` is `0`, not `1`: processed one entry,
updated none, failed none. -/
theorem C9_counterexample :
    (transformReviews (fun j => .ok j) "2026-01-01T00:00:00.000Z"
        [("reviews_1", .bad "")]).1 =
      .ok { processed := 1, updated := 0, failed := 0 } := by
  rfl

/-- Witness for the amended C9 theorem: two matched keys, one unparsable
(counted) and one well-formed (transformed, not counted); an unmatched key
is ignored. -/
theorem C9_witness :
    failedOf (transformReviews (fun j => .ok j) "2026-01-01T00:00:00.000Z"
      [("reviews_1", .bad "xyz"),
       ("reviews_2", .ok (.obj [("reviews", .arr [.num 1])])),
       ("other", .bad "")]) = 1 := by
  obtain ⟨res, h1, _, h3⟩ := C9_transformReviews_failed_count
    (fun j => .ok j) "2026-01-01T00:00:00.000Z"
    [("reviews_1", .bad "xyz"),
     ("reviews_2", .ok (.obj [("reviews", .arr [.num 1])])),
     ("other", .bad "")] (by simp)
  unfold failedOf
  rw [h1]
  show res.failed = 1
  rw [h3]
  rfl

/-! ### createMigration (migrations.js lines 61-91) -/

/-- The object a `migrate` callback returns: any subset of the fields the
engine reads back (absent fields are `none`).  Ad hoc extra fields (such as
`updated` counts) are carried by results but never read by the engine and
are not modelled. -/
structure MigRet where
  success : Option Bool := none
  affectedKeys : Option (List String) := none
  error : Option JsError := none
  message : Option String := none
deriving Repr, DecidableEq

/-- A `migrate` callback: may mutate the store and either return a `MigRet`
or throw; the store component is the post-state in both cases. -/
def MigrateFn : Type :=
  String → String → RawStore → (Except JsError MigRet) × RawStore

/-- `createMigration({affects, migrate})` from migrations.js: logs, runs
`migrate` inside a try/catch; on normal return resolves to
`{success: true, affectedKeys: affects, ...result}` (the result's own fields
spread over the defaults); on a throw resolves — never rejects — to
`{success: false, affectedKeys: affects, error: {message, stack}}`. -/
def createMigration (affects : List String) (migrate : MigrateFn) : MigProc :=
  fun fromVersion toVersion s =>
    match migrate fromVersion toVersion s with
    | (.ok result, s1) =>
      (.ok { success := result.success.getD true,
             affectedKeys := some (result.affectedKeys.getD affects),
             error := result.error,
             message := result.message }, s1)
    | (.error e, s1) =>
      (.ok { success := false, affectedKeys := some affects,
             error := some ⟨e.message, e.stack⟩, message := none }, s1)

/-- C10: a procedure built with `createMigration` never throws: whatever the
`migrate` callback does, the call resolves.  If `migrate` throws, the
procedure resolves to `success = false` with the declared `affects` and the
thrown error's message and stack; if `migrate` returns normally, the
procedure resolves with `success` defaulting to `true` and `affectedKeys`
defaulting to the declared `affects`, the fields of the migrate result
spread over these defaults (so a returned `success = false` overrides the
default, and a returned key list overrides `affects`); the callback's store
effects persist in both cases. -/
theorem C10_createMigration_never_throws (affects : List String)
    (migrate : MigrateFn) (fromVersion toVersion : String) (s : RawStore) :
    isThrow (createMigration affects migrate fromVersion toVersion s).1 =
      false ∧
    (∀ e s1, migrate fromVersion toVersion s = (.error e, s1) →
      createMigration affects migrate fromVersion toVersion s =
        (.ok { success := false, affectedKeys := some affects,
               error := some ⟨e.message, e.stack⟩, message := none }, s1)) ∧
    (∀ r s1, migrate fromVersion toVersion s = (.ok r, s1) →
      createMigration affects migrate fromVersion toVersion s =
        (.ok { success := r.success.getD true,
               affectedKeys := some (r.affectedKeys.getD affects),
               error := r.error, message := r.message }, s1)) := by
  refine ⟨?_, ?_, ?_⟩
  · unfold createMigration
    rcases migrate fromVersion toVersion s with ⟨exc, s1⟩
    cases exc <;> rfl
  · intro e s1 h
    unfold createMigration
    rw [h]
  · intro r s1 h
    unfold createMigration
    rw [h]

/-- Witness for C10: a callback that throws after mutating the store. -/
theorem C10_witness :
    createMigration ["companies"]
        (fun _ _ st => (.error ⟨"kaboom", "stack1"⟩,
          setItem "companies" "[]" st))
        "1.0.0" "1.1.0" [] =
      (.ok { success := false, affectedKeys := some ["companies"],
             error := some ⟨"kaboom", "stack1"⟩, message := none },
       [("companies", "[]")]) := by
  have h := (C10_createMigration_never_throws ["companies"]
    (fun _ _ st => (.error ⟨"kaboom", "stack1"⟩,
      setItem "companies" "[]" st)) "1.0.0" "1.1.0" []).2.1
    ⟨"kaboom", "stack1"⟩ [("companies", "[]")] (by rfl)
  exact h

end GcBc
